import Mathlib

/-!
# Cross-workgroup synchronisation (`cross-wg-sync.hip.cpp`)

A shallow embedding of the `workgroup_barrier` primitive and of the kernel
`simple_workgroup_reduce` built on it.

* The kernel body is a straight-line instruction stream (`Instr`), obtained by
  inlining `wait_eq`, `aquire`, `release` and `inc` exactly as the source does.
* A wavefront has one program counter; the wavefronts of all workgroups are
  interleaved arbitrarily by a schedule (a list of `(blockIdx, wave)` pairs).
  With `waveSize = 1` this is the arbitrary interleaving of single threads.
* A spin loop iteration whose exit test fails changes nothing, so it is not a
  step: a spinning wavefront is simply not enabled.
* `float` is an abstract type `α` with an abstract `add`; nothing is assumed
  about `add` unless a theorem says so.
* `uint32_t` values are naturals, reduced modulo `2 ^ 32` where the source
  computes in 32 bits.
* Memory is the interleaving (sequentially consistent) one: every load sees
  the last store of the schedule.
* `atomic_store_fp32` is modelled for every target and every offset, and the
  store of the kernel goes through it: a launch carries the target symbols
  its device code was compiled with.
-/

namespace CrossWgSync

/-! ## Constants of the source -/

/-- Value of `#define WARP_SIZE 64`. -/
def WARP_SIZE : Nat := 64

/-- Value of `#define BLOCK_SIZE 256`. -/
def BLOCK_SIZE : Nat := 256

/-- Value of `#define GRID_SIZE 3000`. -/
def GRID_SIZE : Nat := 3000

/-- Number of values of a `uint32_t`, that is `2 ^ 32`. -/
def U32 : Nat := 4294967296

/-- Number of non-negative values of an `int`, that is `2 ^ 31`. -/
def INT_LIMIT : Nat := 2147483648

/-! ## Atomic memory primitives -/

/-- Preprocessor symbols tested by `atomic_store_fp32`: each field says whether
the symbol `__gfx908__`, `__gfx90a__`, `__gfx940__`, `__gfx941__`, `__gfx942__`
is defined for the compilation at hand. -/
structure Macros where
  gfx908 : Bool
  gfx90a : Bool
  gfx940 : Bool
  gfx941 : Bool
  gfx942 : Bool
deriving DecidableEq

/-- Statements that can make up the body of `atomic_store_fp32` once the
preprocessor has run: the two `asm volatile` blocks of the source, each a
`global_store_dword` (with `glc`, or with `sc0 sc1`) followed by
`s_waitcnt vmcnt(0)`. -/
inductive Stmt where
  | global_store_dword_glc
  | global_store_dword_sc0_sc1
deriving DecidableEq

/-- Body of `atomic_store_fp32` after preprocessing:
`#if (gfx908 || gfx90a) asm(... glc ...) #elif (gfx940 || gfx941 || gfx942)
asm(... sc0 sc1 ...) #endif`.  There is no `#else` branch: when none of the
symbols is defined the body is empty. -/
def atomic_store_fp32_body (m : Macros) : List Stmt :=
  if m.gfx908 || m.gfx90a then [Stmt.global_store_dword_glc]
  else if m.gfx940 || m.gfx941 || m.gfx942 then [Stmt.global_store_dword_sc0_sc1]
  else []

/-- The 32-bit byte offset handed to the store instruction:
`static_cast<uint32_t>(offset * sizeof(uint32_t))`. -/
def store_voffset (offset : Nat) : Nat := (offset * 4) % U32

/-- Effect of one statement of the body on the array `addr` (indexed in
4-byte words): `global_store_dword voffset, value, addr` writes the word at
byte offset `voffset`. -/
def exec_stmt {α : Type} (addr : Nat → α) (value : α) (offset : Nat) : Stmt → (Nat → α)
  | Stmt.global_store_dword_glc =>
      fun j => if j = store_voffset offset / 4 then value else addr j
  | Stmt.global_store_dword_sc0_sc1 =>
      fun j => if j = store_voffset offset / 4 then value else addr j

/-- Function `atomic_store_fp32(addr, value, offset)` as built for the target
described by `m`: the statements of the preprocessed body, run in order. -/
def atomic_store_fp32 {α : Type} (m : Macros) (addr : Nat → α) (value : α) (offset : Nat) :
    Nat → α :=
  (atomic_store_fp32_body m).foldl (fun mem st => exec_stmt mem value offset st) addr

/-- Function `atomic_load_fp32(addr, offset)`: the word at `addr + offset`. -/
def atomic_load_fp32 {α : Type} (addr : Nat → α) (offset : Nat) : α := addr offset

/-- Function `atomicCAS_system(ptr, compare, value)` on the word `mem`: the
value returned (the old content) and the new content. -/
def atomicCAS_system (mem compare value : Nat) : Nat × Nat :=
  (mem, if mem = compare then value else mem)

/-- Function `atomicAdd(ptr, val)` on the 32-bit word `mem`: the value returned
and the new content. -/
def atomicAdd (mem val : Nat) : Nat × Nat := (mem, (mem + val) % U32)

/-! ## `workgroup_barrier` -/

/-- Method `workgroup_barrier::ld(offset)`: the atomic load returns the
content `slot` of the counter word. -/
def ld (slot : Nat) : Nat := slot

/-- Loop test of `wait_eq`, `while(ld(offset) != value){}`, on the loaded
word `c`: `true` means thread 0 goes round again. -/
def wait_eq_spins (value c : Nat) : Bool := decide (c ≠ value)

/-- Loop test of `wait_lt`, `while(ld(offset) < value){}`, on the loaded
word `c`: `true` means thread 0 goes round again. -/
def wait_lt_spins (value c : Nat) : Bool := decide (c < value)

/-- Loop test of `wait_set`, `while(atomicCAS_system(...) != compare){}`, on
the word `old` returned by the CAS: `true` means thread 0 goes round again. -/
def wait_set_spins (compare old : Nat) : Bool := decide (old ≠ compare)

/-- Instructions of a wavefront.  The three `spin_*` instructions are the
`if(threadIdx.x == 0){ while(...){} }` blocks of `wait_eq`, `wait_lt` and
`wait_set`; `atomic_add` is `if(threadIdx.x == 0){ atomicAdd(..., 1); }`. -/
inductive Instr where
  | spin_eq (value : Nat)
  | spin_lt (value : Nat)
  | spin_cas (compare value : Nat)
  | s_barrier
  | load_out
  | load_in
  | store_out
  | atomic_add
deriving DecidableEq

/-- Method `workgroup_barrier::wait_eq(value)`. -/
def wait_eq (value : Nat) : List Instr := [Instr.spin_eq value, Instr.s_barrier]

/-- Method `workgroup_barrier::wait_lt(value)`. -/
def wait_lt (value : Nat) : List Instr := [Instr.spin_lt value, Instr.s_barrier]

/-- Method `workgroup_barrier::wait_set(compare, value)`. -/
def wait_set (compare value : Nat) : List Instr :=
  [Instr.spin_cas compare value, Instr.s_barrier]

/-- Method `workgroup_barrier::aquire()`, that is `wait_set(0, 1)`. -/
def aquire : List Instr := wait_set 0 1

/-- Method `workgroup_barrier::release()`, that is `wait_set(1, 0)`. -/
def release : List Instr := wait_set 1 0

/-- Method `workgroup_barrier::inc()`: barrier first, then the add. -/
def inc : List Instr := [Instr.s_barrier, Instr.atomic_add]

/-- Kernel `simple_workgroup_reduce<serialized_reduce>` for the workgroup
`blockIdx`, with the barrier methods inlined (the `#else` data path). -/
def simple_workgroup_reduce (serialized_reduce : Bool) (blockIdx : Nat) : List Instr :=
  (if serialized_reduce then wait_eq blockIdx else aquire)
    ++ [Instr.load_out, Instr.load_in, Instr.store_out]
    ++ (if serialized_reduce then inc else release)

/-! ## The machine -/

/-- A kernel launch: the target symbols the device code was compiled with,
the instruction stream per workgroup (`blockIdx.x` is the argument), the grid
size, the block size, the number `waveSize` of consecutive threads that form
a wavefront and run in lockstep, the float addition and the (immutable) input
array. -/
structure Launch (α : Type) where
  macros : Macros
  kernel : Nat → List Instr
  gridDim : Nat
  blockDim : Nat
  waveSize : Nat
  add : α → α → α
  p_in : Nat → α

/-- Number of wavefronts of a workgroup: `blockDim / waveSize`, rounded up. -/
def Launch.numWaves {α : Type} (K : Launch α) : Nat :=
  (K.blockDim + K.waveSize - 1) / K.waveSize

/-- Whether thread `i` exists and runs in wavefront `w`. -/
def Launch.lane {α : Type} (K : Launch α) (w i : Nat) : Prop :=
  i / K.waveSize = w ∧ i < K.blockDim

instance {α : Type} (K : Launch α) (w i : Nat) : Decidable (K.lane w i) := by
  unfold Launch.lane; infer_instance

/-- Element read by thread `i` of workgroup `b`:
`*(p_in + blockIdx.x * BLOCK_SIZE + threadIdx.x)`, the product being computed
in 32-bit unsigned arithmetic. -/
def Launch.tile {α : Type} (K : Launch α) (b i : Nat) : α :=
  K.p_in ((b * BLOCK_SIZE) % U32 + i)

/-- Device state: the counter slot `*p_cnt`, the output row `p_out`, the
program counter of every wavefront and the registers `o_data`, `i_data` of
every thread. -/
structure State (α : Type) where
  cnt : Nat
  p_out : Nat → α
  pc : Nat → Nat → Nat
  o_data : Nat → Nat → α
  i_data : Nat → Nat → α

/-- State at launch: counter `c`, output row `o`, registers holding `r`. -/
def State.launch {α : Type} (c : Nat) (o : Nat → α) (r : α) : State α :=
  { cnt := c, p_out := o, pc := fun _ _ => 0, o_data := fun _ _ => r, i_data := fun _ _ => r }

/-- Wavefront `w` of workgroup `b` moves to its next instruction. -/
def State.advance {α : Type} (s : State α) (b w : Nat) : State α :=
  { s with pc := fun b' w' => if b' = b ∧ w' = w then s.pc b w + 1 else s.pc b' w' }

/-- Test of `__builtin_amdgcn_s_barrier()` for a wavefront of workgroup `b`
standing at the barrier at position `k`: every wavefront of the workgroup has
reached that barrier. -/
def arrived {α : Type} (K : Launch α) (s : State α) (b k : Nat) : Bool :=
  (List.range K.numWaves).all fun w' => decide (k ≤ s.pc b w')

/-- The store of wavefront `w` of workgroup `b`: each of its threads
`i = w * waveSize, ..., w * waveSize + waveSize - 1` that exists (`i < blockDim`)
executes `atomic_store_fp32(p_out, i_data + o_data, threadIdx.x)`, as built
for the target of the launch; the result is the new output row.  The threads
are taken in ascending order. -/
def store_wave {α : Type} (K : Launch α) (s : State α) (b w : Nat) : Nat → α :=
  (List.range' (w * K.waveSize) K.waveSize).foldl
    (fun mem i =>
      if i < K.blockDim then
        atomic_store_fp32 K.macros mem (K.add (s.i_data b i) (s.o_data b i)) i
      else mem)
    s.p_out

/-- Effect of one instruction executed by wavefront `w` of workgroup `b`;
`none` when the wavefront cannot move (spin test fails, barrier closed).
Thread 0 is in wavefront 0, so the `if(threadIdx.x == 0)` blocks are executed
by wavefront 0 and skipped by the others.  The three data instructions are
executed by every thread `i` of the wavefront:
`o_data = atomic_load_fp32(p_out, i)`, `i_data = p_in[blockIdx.x * 256 + i]`,
`atomic_store_fp32(p_out, i_data + o_data, i)` (see `store_wave`). -/
def execInstr {α : Type} (K : Launch α) (s : State α) (b w : Nat) : Instr → Option (State α)
  | Instr.spin_eq value =>
      if w = 0 then
        if wait_eq_spins value (ld s.cnt) then none else some (s.advance b w)
      else some (s.advance b w)
  | Instr.spin_lt value =>
      if w = 0 then
        if wait_lt_spins value (ld s.cnt) then none else some (s.advance b w)
      else some (s.advance b w)
  | Instr.spin_cas compare value =>
      if w = 0 then
        if wait_set_spins compare (atomicCAS_system s.cnt compare value).1 then none
        else some (State.advance { s with cnt := (atomicCAS_system s.cnt compare value).2 } b w)
      else some (s.advance b w)
  | Instr.s_barrier =>
      if arrived K s b (s.pc b w) then some (s.advance b w) else none
  | Instr.load_out =>
      some (State.advance
        { s with o_data := fun b' i =>
            if b' = b ∧ K.lane w i then atomic_load_fp32 s.p_out i else s.o_data b' i } b w)
  | Instr.load_in =>
      some (State.advance
        { s with i_data := fun b' i =>
            if b' = b ∧ K.lane w i then K.tile b i else s.i_data b' i } b w)
  | Instr.store_out =>
      some (State.advance { s with p_out := store_wave K s b w } b w)
  | Instr.atomic_add =>
      if w = 0 then some (State.advance { s with cnt := (atomicAdd s.cnt 1).2 } b w)
      else some (s.advance b w)

/-- One step of wavefront `w` of workgroup `b`: fetch and execute. -/
def exec {α : Type} (K : Launch α) (s : State α) (b w : Nat) : Option (State α) :=
  match (K.kernel b)[s.pc b w]? with
  | none => none
  | some ins => execInstr K s b w ins

/-- Run a schedule: each entry names the wavefront that takes the next step.
The run fails if the named wavefront does not exist or cannot move. -/
def run {α : Type} (K : Launch α) : List (Nat × Nat) → State α → Option (State α)
  | [], s => some s
  | (b, w) :: rest, s =>
      if b < K.gridDim ∧ w < K.numWaves then
        match exec K s b w with
        | none => none
        | some s' => run K rest s'
      else none

/-- Wavefront `w` of workgroup `b` has left the kernel. -/
def State.finished {α : Type} (K : Launch α) (s : State α) (b w : Nat) : Prop :=
  (K.kernel b).length ≤ s.pc b w

/-- Every wavefront of every workgroup has left the kernel. -/
def State.allDone {α : Type} (K : Launch α) (s : State α) : Prop :=
  ∀ b, b < K.gridDim → ∀ w, w < K.numWaves → s.finished K b w

/-- Executable form of `State.allDone`. -/
def State.allDoneB {α : Type} (K : Launch α) (s : State α) : Bool :=
  (List.range K.gridDim).all fun b =>
    (List.range K.numWaves).all fun w => decide ((K.kernel b).length ≤ s.pc b w)

/-- Launch of `simple_workgroup_reduce<serialized>`, compiled with the target
symbols `m`, on `N` workgroups of `L` threads, `W` lanes per wavefront. -/
def reduce_launch {α : Type} (serialized : Bool) (m : Macros) (N L W : Nat)
    (add : α → α → α) (p_in : Nat → α) : Launch α :=
  { macros := m, kernel := simple_workgroup_reduce serialized, gridDim := N, blockDim := L,
    waveSize := W, add := add, p_in := p_in }

/-- Function `host_workgroup_reduce(p_in, p_out, groups, length)`: the new
content of `p_out`.  The index `g * length + l` is an `int`; the result is
`none` when some index of the loops does not fit. -/
def host_workgroup_reduce {α : Type} (add : α → α → α) (zero : α) (p_in p_out : Nat → α)
    (groups length : Nat) : Option (Nat → α) :=
  if groups * length ≤ INT_LIMIT then
    some fun l =>
      if l < length then
        (List.range groups).foldl (fun sum g => add sum (p_in (g * length + l))) zero
      else p_out l
  else none


/-- Number of instructions executed so far by all wavefronts of the grid. -/
def State.progress {α : Type} (K : Launch α) (s : State α) : Nat :=
  ∑ b in Finset.range K.gridDim, ∑ w in Finset.range K.numWaves, s.pc b w

/-- Control invariant of the serialized protocol started from a zero counter. -/
structure SerInv {α : Type} (K : Launch α) (s : State α) : Prop where
  cnt_le : s.cnt ≤ K.gridDim
  pc_le : ∀ b w, s.pc b w ≤ 7
  lead_lo : ∀ b, b < K.gridDim → s.pc b 0 ≤ 6 → s.cnt ≤ b
  lead_hi : ∀ b, 1 ≤ s.pc b 0 → b ≤ s.cnt
  lead_done : ∀ b, 7 ≤ s.pc b 0 → b + 1 ≤ s.cnt
  bar1 : ∀ b w w', w' < K.numWaves → 2 ≤ s.pc b w → 1 ≤ s.pc b w'
  bar5 : ∀ b w w', w' < K.numWaves → 6 ≤ s.pc b w → 5 ≤ s.pc b w'
  idle : ∀ b w, K.gridDim ≤ b → s.pc b w = 0

/-- Value of output element `i` once the tiles of workgroups `0 .. n-1` have
been added onto `o0 i`, one at a time in ascending block order, each step
computing `input + output` as the kernel does. -/
def accum {α : Type} (K : Launch α) (o0 : Nat → α) (i : Nat) : Nat → α
  | 0 => o0 i
  | n + 1 => K.add (K.tile n i) (accum K o0 i n)

/-- Data invariant of the serialized protocol: the workgroup whose turn it is
(`s.cnt`) is the only one touching the output row. -/
structure SerData {α : Type} (K : Launch α) (o0 : Nat → α) (s : State α) : Prop where
  out_eq : ∀ i, i < K.blockDim →
    s.p_out i = accum K o0 i (if 5 ≤ s.pc s.cnt (i / K.waveSize) then s.cnt + 1 else s.cnt)
  o_eq : ∀ i, i < K.blockDim → 3 ≤ s.pc s.cnt (i / K.waveSize) →
    s.pc s.cnt (i / K.waveSize) ≤ 4 → s.o_data s.cnt i = accum K o0 i s.cnt
  i_eq : ∀ i, i < K.blockDim → s.pc s.cnt (i / K.waveSize) = 4 →
    s.i_data s.cnt i = K.tile s.cnt i

/-- Workgroup `b` holds the critical section: the CAS of `aquire()` issued by
its thread 0 has succeeded and the CAS of `release()` has not yet. -/
def State.holds {α : Type} (s : State α) (b : Nat) : Prop :=
  1 ≤ s.pc b 0 ∧ s.pc b 0 ≤ 5

/-- Control invariant of the out-of-order protocol started from a zero
counter. -/
structure OooInv {α : Type} (K : Launch α) (s : State α) : Prop where
  pc_le : ∀ b w, s.pc b w ≤ 7
  cnt_le : s.cnt ≤ 1
  holder_cnt : ∀ b, 1 ≤ s.pc b 0 → s.pc b 0 ≤ 5 → s.cnt = 1
  uniq : ∀ b b', 1 ≤ s.pc b 0 → s.pc b 0 ≤ 5 → 1 ≤ s.pc b' 0 → s.pc b' 0 ≤ 5 → b = b'
  held : s.cnt = 1 → ∃ b, b < K.gridDim ∧ 1 ≤ s.pc b 0 ∧ s.pc b 0 ≤ 5
  bar1 : ∀ b w w', w' < K.numWaves → 2 ≤ s.pc b w → 1 ≤ s.pc b w'
  bar6 : ∀ b w w', w' < K.numWaves → 7 ≤ s.pc b w → 6 ≤ s.pc b w'

/-- Value of output element `i` once the tiles of the workgroups listed in
`ord` have been added onto `o0 i`, one at a time in the order of the list,
each step computing `input + output` as the kernel does. -/
def accum_order {α : Type} (K : Launch α) (o0 : Nat → α) (i : Nat) (ord : List Nat) : α :=
  ord.foldl (fun o b => K.add (K.tile b i) o) (o0 i)

/-- Data invariant of the out-of-order protocol for the threads that run in
the wavefront of thread 0: `ord` lists the workgroups whose wavefront 0 has
stored, in the order of their stores. -/
structure OooData {α : Type} (K : Launch α) (o0 : Nat → α) (s : State α) (ord : List Nat) :
    Prop where
  nodup : ord.Nodup
  mem : ∀ b, b ∈ ord ↔ b < K.gridDim ∧ 5 ≤ s.pc b 0
  out_eq : ∀ i, K.lane 0 i → s.p_out i = accum_order K o0 i ord
  o_eq : ∀ b i, K.lane 0 i → 3 ≤ s.pc b 0 → s.pc b 0 ≤ 4 →
    s.o_data b i = accum_order K o0 i ord
  i_eq : ∀ b i, K.lane 0 i → s.pc b 0 = 4 → s.i_data b i = K.tile b i

/-- State reached by a schedule, or the start state if the schedule cannot
be run. -/
def State.after {α : Type} (K : Launch α) (sched : List (Nat × Nat)) (s : State α) : State α :=
  match run K sched s with
  | some s' => s'
  | none => s

/-- The schedule that runs the workgroups one after the other in block order,
the wavefronts of a workgroup taking turns instruction by instruction. -/
def sequential (N numWaves : Nat) : List (Nat × Nat) :=
  (List.range N).flatMap fun b =>
    (List.range 7).flatMap fun _ => (List.range numWaves).map fun w => (b, w)

/-- Input of the demonstrations: tile 0 is all ones, every other tile all
twos. -/
def demo_in : Nat → Nat := fun j => if j < 256 then 1 else 2

/-- The all-zero row. -/
def zero_row : Nat → Nat := fun _ => 0

/-- Whether one of the targets for which `atomic_store_fp32` has a body is
being compiled for. -/
def Macros.supported (m : Macros) : Bool :=
  m.gfx908 || m.gfx90a || m.gfx940 || m.gfx941 || m.gfx942

/-- Compilation for a target that defines none of the five symbols (any other
GPU, or the host pass). -/
def other_target : Macros :=
  { gfx908 := false, gfx90a := false, gfx940 := false, gfx941 := false, gfx942 := false }

/-- Compilation for gfx90a. -/
def target_gfx90a : Macros :=
  { gfx908 := false, gfx90a := true, gfx940 := false, gfx941 := false, gfx942 := false }

/-- Launch of a kernel whose body is `barrier.wait_lt(value)` alone. -/
def wait_lt_launch (value N L W : Nat) : Launch Nat :=
  { macros := target_gfx90a, kernel := fun _ => wait_lt value, gridDim := N, blockDim := L,
    waveSize := W,
    add := Nat.add, p_in := zero_row }

/-- A schedule of the out-of-order kernel for two workgroups of four
wavefronts.  Workgroup 0 enters; its wavefront 0 (threads 0..63) does its
load, add, store and releases the lock while wavefront 1 (threads 64..127) has
only loaded.  Workgroup 1 enters and its wavefront 1 loads, adds and stores.
Then wavefront 1 of workgroup 0 stores the sum it computed from its stale
load.  The rest of the schedule lets every wavefront finish. -/
def lost_update_schedule : List (Nat × Nat) :=
  [(0, 0), (0, 1), (0, 2), (0, 3),
   (0, 0), (0, 0), (0, 0), (0, 0), (0, 0),
   (0, 1), (0, 1),
   (1, 0), (1, 1), (1, 2), (1, 3),
   (1, 1), (1, 1), (1, 1), (1, 1),
   (0, 1), (0, 1),
   (1, 0), (1, 0), (1, 0), (1, 0),
   (1, 2), (1, 2), (1, 2), (1, 2), (1, 3), (1, 3), (1, 3), (1, 3),
   (0, 2), (0, 2), (0, 2), (0, 2), (0, 3), (0, 3), (0, 3), (0, 3),
   (1, 0), (1, 1), (1, 2), (1, 3), (0, 1), (0, 2), (0, 3),
   (0, 0), (0, 1), (0, 2), (0, 3), (1, 0), (1, 1), (1, 2), (1, 3)]

/-- Value the specification gives for output element `i`: `o0 i` with the
tile elements `p_in (b * stride + i)` added one at a time for
`b = 0, 1, ..., n-1`, each step computing `input + output`. -/
def block_order_sum {α : Type} (add : α → α → α) (p_in : Nat → α) (stride : Nat)
    (o0 : Nat → α) (i : Nat) : Nat → α
  | 0 => o0 i
  | n + 1 => add (p_in (n * stride + i)) (block_order_sum add p_in stride o0 i n)

/-- An input array that is 0 on its first `2 ^ 32` elements and 1 after. -/
def wrap_in : Nat → Nat := fun j => if j < 4294967296 then 0 else 1

/-- The input `[[1,2],[3,4]]` of two tiles of two elements laid out with
stride 2 (row-major `N x L`), followed by zeros. -/
def packed_in : Nat → Nat := fun j => [1, 2, 3, 4].getD j 0

/-- The output row pre-filled with `[10, 20]`. -/
def prefilled_row : Nat → Nat := fun j => [10, 20].getD j 0

/-- The input `[[1,2],[3,4]]` laid out with stride 256: tile `b` starts at
element `b * 256`. -/
def strided_in : Nat → Nat := fun j =>
  if j = 0 then 1 else if j = 1 then 2 else if j = 256 then 3 else if j = 257 then 4 else 0

/-- The input `[[1,1,1,1],[2,2,2,2],[3,3,3,3]]` laid out with stride 256. -/
def rows_in : Nat → Nat := fun j => if j % 256 < 4 then j / 256 + 1 else 0

/-- Value the specification gives for output element `i` when the workgroups
commit in the order `ord`: `o0 i` with `p_in (b * stride + i)` added once for
each `b` of `ord`, in that order. -/
def order_sum {α : Type} (add : α → α → α) (p_in : Nat → α) (stride : Nat)
    (o0 : Nat → α) (i : Nat) (ord : List Nat) : α :=
  ord.foldl (fun o b => add (p_in (b * stride + i)) o) (o0 i)

/-- The input that is 1 everywhere. -/
def ones_row : Nat → Nat := fun _ => 1

/-- A state of the serialized kernel for one workgroup of `2 ^ 30 + 1`
single-thread wavefronts, zero output row and input `ones_row`, in which
every thread has loaded `output[i] = 0` and its input 1 and stands at its
store. -/
def before_store : State Nat :=
  { cnt := 0, p_out := zero_row,
    pc := fun b w => if b = 0 ∧ w < 1073741825 then 4 else 0,
    o_data := fun _ _ => 0, i_data := fun _ _ => 1 }

/-- Compilation for gfx942. -/
def target_gfx942 : Macros :=
  { gfx908 := false, gfx90a := false, gfx940 := false, gfx941 := false, gfx942 := true }

/-! ## Theorems -/

theorem arrived_iff {α : Type} (K : Launch α) (s : State α) (b k : Nat) :
    arrived K s b k = true ↔ ∀ w', w' < K.numWaves → k ≤ s.pc b w' := by
  simp [arrived]

theorem allDoneB_iff {α : Type} (K : Launch α) (s : State α) :
    s.allDoneB K = true ↔ s.allDone K := by
  simp [State.allDoneB, State.allDone, State.finished]

theorem run_nil {α : Type} (K : Launch α) (s : State α) : run K [] s = some s := rfl

theorem run_cons {α : Type} (K : Launch α) (s : State α) (b w : Nat)
    (rest : List (Nat × Nat)) (hb : b < K.gridDim) (hw : w < K.numWaves) :
    run K ((b, w) :: rest) s =
      match exec K s b w with
      | none => none
      | some s' => run K rest s' := by
  simp [run, hb, hw]

theorem run_cons_some {α : Type} {K : Launch α} {s s'' : State α} {b w : Nat}
    {rest : List (Nat × Nat)} (h : run K ((b, w) :: rest) s = some s'') :
    b < K.gridDim ∧ w < K.numWaves ∧ ∃ s', exec K s b w = some s' ∧ run K rest s' = some s'' := by
  simp only [run] at h
  split_ifs at h with hv
  refine ⟨hv.1, hv.2, ?_⟩
  cases he : exec K s b w with
  | none => simp [he] at h
  | some s' => exact ⟨s', rfl, by simpa [he] using h⟩

/-- A property kept by every step of an existing wavefront is kept by a run. -/
theorem run_invariant {α : Type} (K : Launch α) (P : State α → Prop)
    (hstep : ∀ s s' b w, b < K.gridDim → w < K.numWaves → P s →
      exec K s b w = some s' → P s') :
    ∀ (sched : List (Nat × Nat)) (s s' : State α), P s → run K sched s = some s' → P s' := by
  intro sched
  induction sched with
  | nil =>
      intro s s' hP h
      simp only [run, Option.some.injEq] at h
      exact h ▸ hP
  | cons x rest ih =>
      intro s s' hP h
      obtain ⟨b, w⟩ := x
      obtain ⟨hb, hw, s1, he, hr⟩ := run_cons_some h
      exact ih s1 s' (hstep s s1 b w hb hw hP he) hr

theorem run_append {α : Type} (K : Launch α) (l1 l2 : List (Nat × Nat)) (s : State α) :
    run K (l1 ++ l2) s =
      match run K l1 s with
      | none => none
      | some s' => run K l2 s' := by
  induction l1 generalizing s with
  | nil => simp [run]
  | cons x rest ih =>
      obtain ⟨b, w⟩ := x
      simp only [List.cons_append, run]
      split_ifs with hv
      · cases he : exec K s b w with
        | none => simp
        | some s1 => simp [ih]
      · rfl

/-- A step executes the instruction under the program counter and moves that
program counter, and no other, by one. -/
theorem exec_pc {α : Type} {K : Launch α} {s s' : State α} {b w : Nat}
    (h : exec K s b w = some s') :
    s.pc b w < (K.kernel b).length ∧
    ∀ b' w', s'.pc b' w' = if b' = b ∧ w' = w then s.pc b w + 1 else s.pc b' w' := by
  unfold exec at h
  cases hf : (K.kernel b)[s.pc b w]? with
  | none => simp [hf] at h
  | some ins =>
      have hlt : s.pc b w < (K.kernel b).length := by
        by_contra hge
        rw [List.getElem?_eq_none (by omega)] at hf
        cases hf
      refine ⟨hlt, ?_⟩
      simp only [hf] at h
      cases ins <;> simp only [execInstr] at h <;> (try split_ifs at h) <;>
        simp only [Option.some.injEq] at h <;> subst h <;> intro b' w' <;> rfl

theorem kernel_length (m : Bool) (b : Nat) : (simple_workgroup_reduce m b).length = 7 := by
  cases m <;> rfl

theorem progress_step {α : Type} {K : Launch α} {s s' : State α} {b w : Nat}
    (hb : b < K.gridDim) (hw : w < K.numWaves) (h : exec K s b w = some s') :
    s'.progress K = s.progress K + 1 := by
  obtain ⟨-, hpc⟩ := exec_pc h
  unfold State.progress
  have e : ∀ b' w', s'.pc b' w' = s.pc b' w' + (if b' = b then (if w' = w then 1 else 0) else 0) := by
    intro b' w'
    rw [hpc]
    by_cases h1 : b' = b
    · by_cases h2 : w' = w
      · simp [h1, h2]
      · simp [h1, h2]
    · simp [h1]
  simp only [e, Finset.sum_add_distrib]
  congr 1
  rw [Finset.sum_eq_single b]
  · simp [hw]
  · intro b' _ hne
    simp [hne]
  · intro hnb
    simp at hnb
    omega

theorem progress_run {α : Type} (K : Launch α) :
    ∀ (sched : List (Nat × Nat)) (s s' : State α), run K sched s = some s' →
      s'.progress K = s.progress K + sched.length := by
  intro sched
  induction sched with
  | nil =>
      intro s s' h
      simp only [run, Option.some.injEq] at h
      simp [h]
  | cons x rest ih =>
      intro s s' h
      obtain ⟨b, w⟩ := x
      obtain ⟨hb, hw, s1, he, hr⟩ := run_cons_some h
      rw [ih s1 s' hr, progress_step hb hw he, List.length_cons]
      omega

theorem progress_le {α : Type} (K : Launch α) (s : State α) (n : Nat)
    (hpc : ∀ b w, s.pc b w ≤ n) : s.progress K ≤ n * K.gridDim * K.numWaves := by
  unfold State.progress
  calc ∑ b in Finset.range K.gridDim, ∑ w in Finset.range K.numWaves, s.pc b w
      ≤ ∑ _b in Finset.range K.gridDim, ∑ _w in Finset.range K.numWaves, n :=
        Finset.sum_le_sum fun b _ => Finset.sum_le_sum fun w _ => hpc b w
    _ = n * K.gridDim * K.numWaves := by
        simp only [Finset.sum_const, Finset.card_range, smul_eq_mul]
        ring

theorem progress_launch {α : Type} (K : Launch α) (c : Nat) (o : Nat → α) (r : α) :
    (State.launch c o r).progress K = 0 := by
  simp [State.progress, State.launch]

theorem progress_lt_of_not_done {α : Type} (K : Launch α) (s : State α) (n : Nat)
    (hlen : ∀ b, (K.kernel b).length = n) (hpc : ∀ b w, s.pc b w ≤ n)
    (hnd : ¬ s.allDone K) : s.progress K < n * K.gridDim * K.numWaves := by
  unfold State.allDone State.finished at hnd
  push_neg at hnd
  obtain ⟨b, hb, w, hw, hlt⟩ := hnd
  rw [hlen] at hlt
  unfold State.progress
  calc ∑ b in Finset.range K.gridDim, ∑ w in Finset.range K.numWaves, s.pc b w
      < ∑ _b in Finset.range K.gridDim, ∑ _w in Finset.range K.numWaves, n := by
        apply Finset.sum_lt_sum
        · exact fun b _ => Finset.sum_le_sum fun w _ => hpc b w
        · refine ⟨b, Finset.mem_range.mpr hb, ?_⟩
          apply Finset.sum_lt_sum
          · exact fun w _ => hpc b w
          · exact ⟨w, Finset.mem_range.mpr hw, hlt⟩
    _ = n * K.gridDim * K.numWaves := by
        simp only [Finset.sum_const, Finset.card_range, smul_eq_mul]
        ring

/-- From any state of a deadlock-free system some schedule runs to completion. -/
theorem exists_complete_run {α : Type} (K : Launch α) (P : State α → Prop) (n : Nat)
    (hlen : ∀ b, (K.kernel b).length = n)
    (hpc : ∀ s, P s → ∀ b w, s.pc b w ≤ n)
    (hstep : ∀ s s' b w, b < K.gridDim → w < K.numWaves → P s →
      exec K s b w = some s' → P s')
    (hlive : ∀ s, P s → ¬ s.allDone K →
      ∃ b w s', b < K.gridDim ∧ w < K.numWaves ∧ exec K s b w = some s') :
    ∀ (k : Nat) (s : State α), P s → n * K.gridDim * K.numWaves - s.progress K ≤ k →
      ∃ sched s', run K sched s = some s' ∧ s'.allDone K := by
  intro k
  induction k with
  | zero =>
      intro s hP hk
      by_cases hd : s.allDone K
      · exact ⟨[], s, rfl, hd⟩
      · have := progress_lt_of_not_done K s n hlen (hpc s hP) hd
        omega
  | succ k ih =>
      intro s hP hk
      by_cases hd : s.allDone K
      · exact ⟨[], s, rfl, hd⟩
      · obtain ⟨b, w, s1, hb, hw, he⟩ := hlive s hP hd
        have hp1 := progress_step hb hw he
        obtain ⟨sched, s2, hr, hd2⟩ := ih s1 (hstep s s1 b w hb hw hP he) (by omega)
        refine ⟨(b, w) :: sched, s2, ?_, hd2⟩
        rw [run_cons K s b w sched hb hw, he]
        exact hr

/-- For a target with a body and an offset below `2 ^ 30`, `atomic_store_fp32`
is the update of `addr[offset]`, as used for the store of the kernel. -/
theorem atomic_store_fp32_update {α : Type} (m : Macros) (addr : Nat → α) (value : α)
    (offset : Nat) (hs : m.supported = true) (ho : offset < 1073741824) :
    atomic_store_fp32 m addr value offset = fun j => if j = offset then value else addr j := by
  have hv : store_voffset offset / 4 = offset := by
    unfold store_voffset U32
    omega
  obtain ⟨a, b, c, d, e⟩ := m
  cases a <;> cases b <;> cases c <;> cases d <;> cases e <;>
    first
    | (simp [Macros.supported] at hs; done)
    | simp [atomic_store_fp32, atomic_store_fp32_body, exec_stmt, hv]

/-- For a target without a body `atomic_store_fp32` changes nothing. -/
theorem atomic_store_fp32_noop {α : Type} (m : Macros) (addr : Nat → α) (value : α)
    (offset : Nat) (hs : m.supported = false) :
    atomic_store_fp32 m addr value offset = addr := by
  obtain ⟨a, b, c, d, e⟩ := m
  cases a <;> cases b <;> cases c <;> cases d <;> cases e <;>
    first
    | (simp [Macros.supported] at hs; done)
    | simp [atomic_store_fp32, atomic_store_fp32_body]

/-- Stores of the values `v i` at the offsets `i` of a list, on a target with
a body and with every stored offset below `2 ^ 30`. -/
theorem foldl_store_supported {α : Type} (m : Macros) (L : Nat) (v : Nat → α)
    (hs : m.supported = true) (hL : L ≤ 1073741824) :
    ∀ (l : List Nat) (mem : Nat → α),
      l.foldl (fun mem i => if i < L then atomic_store_fp32 m mem (v i) i else mem) mem
        = fun j => if j ∈ l ∧ j < L then v j else mem j := by
  intro l
  induction l with
  | nil => intro mem; simp
  | cons i rest ih =>
      intro mem
      rw [List.foldl_cons, ih]
      funext j
      by_cases hi : i < L
      · rw [if_pos hi, atomic_store_fp32_update m mem (v i) i hs (by omega)]
        by_cases hj : j ∈ rest ∧ j < L
        · have hj' : j ∈ i :: rest ∧ j < L := ⟨List.mem_cons_of_mem _ hj.1, hj.2⟩
          rw [if_pos hj, if_pos hj']
        · rw [if_neg hj]
          by_cases hji : j = i
          · subst hji
            have hj' : j ∈ j :: rest ∧ j < L := ⟨List.mem_cons_self _ _, hi⟩
            rw [if_pos hj']
            simp
          · have hj' : ¬ (j ∈ i :: rest ∧ j < L) := by
              rintro ⟨h1, h2⟩
              rcases List.mem_cons.mp h1 with h | h
              · exact hji h
              · exact hj ⟨h, h2⟩
            rw [if_neg hj']
            simp [hji]
      · rw [if_neg hi]
        by_cases hj : j ∈ rest ∧ j < L
        · have hj' : j ∈ i :: rest ∧ j < L := ⟨List.mem_cons_of_mem _ hj.1, hj.2⟩
          rw [if_pos hj, if_pos hj']
        · have hj' : ¬ (j ∈ i :: rest ∧ j < L) := by
            rintro ⟨h1, h2⟩
            rcases List.mem_cons.mp h1 with h | h
            · subst h; exact hi h2
            · exact hj ⟨h, h2⟩
          rw [if_neg hj, if_neg hj']

theorem mem_wave_range (W w j : Nat) (hW : 0 < W) :
    j ∈ List.range' (w * W) W ↔ j / W = w := by
  rw [List.mem_range'_1]
  constructor
  · rintro ⟨h1, h2⟩
    have h3 : w ≤ j / W := (Nat.le_div_iff_mul_le hW).mpr h1
    have h4 : j / W < w + 1 := (Nat.div_lt_iff_lt_mul hW).mpr (by rw [Nat.add_mul]; omega)
    omega
  · intro h
    subst h
    constructor
    · exact Nat.div_mul_le_self j W
    · have := Nat.lt_div_mul_add (a := j) hW
      omega

/-- On a target with a body and for a block of at most `2 ^ 30` threads, the
store of a wavefront writes `i_data + o_data` of each of its threads `i` to
`p_out[i]` and leaves the rest of the row alone. -/
theorem store_wave_supported {α : Type} (K : Launch α) (s : State α) (b w : Nat)
    (hs : K.macros.supported = true) (hL : K.blockDim ≤ 1073741824) (hW : 0 < K.waveSize) :
    store_wave K s b w
      = fun i => if K.lane w i then K.add (s.i_data b i) (s.o_data b i) else s.p_out i := by
  unfold store_wave
  rw [foldl_store_supported K.macros K.blockDim
    (fun i => K.add (s.i_data b i) (s.o_data b i)) hs hL]
  funext j
  simp only [mem_wave_range K.waveSize w j hW, Launch.lane]

theorem fetch_serialized (b k : Nat) :
    (simple_workgroup_reduce true b)[k]? =
      match k with
      | 0 => some (Instr.spin_eq b)
      | 1 => some Instr.s_barrier
      | 2 => some Instr.load_out
      | 3 => some Instr.load_in
      | 4 => some Instr.store_out
      | 5 => some Instr.s_barrier
      | 6 => some Instr.atomic_add
      | _ => none := by
  rcases k with _|_|_|_|_|_|_|k <;> simp [simple_workgroup_reduce, wait_eq, inc]

theorem exec_serialized {α : Type} {K : Launch α} {s s' : State α} {b w : Nat}
    (hk : K.kernel = simple_workgroup_reduce true) (h : exec K s b w = some s') :
    (s.pc b w = 0 ∧ (w = 0 → s.cnt = b) ∧ s' = s.advance b w) ∨
    (s.pc b w = 1 ∧ (∀ w', w' < K.numWaves → 1 ≤ s.pc b w') ∧ s' = s.advance b w) ∨
    (s.pc b w = 2 ∧ s' = State.advance
        { s with o_data := fun b' i =>
            if b' = b ∧ K.lane w i then s.p_out i else s.o_data b' i } b w) ∨
    (s.pc b w = 3 ∧ s' = State.advance
        { s with i_data := fun b' i =>
            if b' = b ∧ K.lane w i then K.tile b i else s.i_data b' i } b w) ∨
    (s.pc b w = 4 ∧ s' = State.advance { s with p_out := store_wave K s b w } b w) ∨
    (s.pc b w = 5 ∧ (∀ w', w' < K.numWaves → 5 ≤ s.pc b w') ∧ s' = s.advance b w) ∨
    (s.pc b w = 6 ∧ w = 0 ∧ s' = State.advance { s with cnt := (s.cnt + 1) % U32 } b w) ∨
    (s.pc b w = 6 ∧ w ≠ 0 ∧ s' = s.advance b w) := by
  unfold exec at h
  rw [hk, fetch_serialized] at h
  rcases hpc : s.pc b w with _|_|_|_|_|_|_|k <;> rw [hpc] at h <;>
    simp only [execInstr, wait_eq_spins, ld, atomicAdd, atomic_load_fp32, hpc] at h
  · by_cases hw : w = 0
    · simp [hw] at h
      obtain ⟨h1, h2⟩ := h
      simp [hw, h1, ← h2, hpc]
    · simp [hw] at h
      simp [hw, ← h]
  · by_cases ha : arrived K s b (0 + 1) = true
    · simp [ha] at h
      rw [arrived_iff] at ha
      simp at ha
      simp [← h]
      exact ha
    · simp [ha] at h
  · simp at h; simp [← h]
  · simp at h; simp [← h]
  · simp at h; simp [← h]
  · by_cases ha : arrived K s b (0 + 1 + 1 + 1 + 1 + 1) = true
    · simp [ha] at h
      rw [arrived_iff] at ha
      simp at ha
      simp [← h]
      exact ha
    · simp [ha] at h
  · by_cases hw : w = 0
    · simp [hw] at h
      simp [hw, ← h]
    · simp [hw] at h
      simp [hw, ← h]
  · simp at h

theorem exec_serialized_ctrl {α : Type} {K : Launch α} {s s' : State α} {b w : Nat}
    (hk : K.kernel = simple_workgroup_reduce true) (h : exec K s b w = some s') :
    s.pc b w ≤ 6 ∧
    (∀ b' w', s'.pc b' w' = if b' = b ∧ w' = w then s.pc b w + 1 else s.pc b' w') ∧
    (s.pc b w = 0 → w = 0 → s.cnt = b) ∧
    (s.pc b w = 1 → ∀ w', w' < K.numWaves → 1 ≤ s.pc b w') ∧
    (s.pc b w = 5 → ∀ w', w' < K.numWaves → 5 ≤ s.pc b w') ∧
    s'.cnt = (if s.pc b w = 6 ∧ w = 0 then (s.cnt + 1) % U32 else s.cnt) := by
  rcases exec_serialized hk h with ⟨hp, hc, rfl⟩ | ⟨hp, hc, rfl⟩ | ⟨hp, rfl⟩ | ⟨hp, rfl⟩ |
    ⟨hp, rfl⟩ | ⟨hp, hc, rfl⟩ | ⟨hp, hw0, rfl⟩ | ⟨hp, hw0, rfl⟩ <;>
  (try subst hw0) <;> simp [State.advance, hp] <;> (try simp [*]) <;>
  first | done | assumption

theorem SerInv.ser_step {α : Type} {K : Launch α} {s s' : State α} {b w : Nat}
    (hk : K.kernel = simple_workgroup_reduce true) (hN : K.gridDim < U32)
    (hb : b < K.gridDim)
    (hinv : SerInv K s) (h : exec K s b w = some s') : SerInv K s' := by
  have hU : U32 = 4294967296 := rfl
  obtain ⟨hp6, hpc, g0, g1, g5, hcnt⟩ := exec_serialized_ctrl hk h
  have c3 := hinv.lead_lo b hb
  have c4 := hinv.lead_hi b
  have hcnt' : s'.cnt = if s.pc b w = 6 ∧ w = 0 then s.cnt + 1 else s.cnt := by
    rw [hcnt]
    split_ifs with hc
    · obtain ⟨hc1, rfl⟩ := hc
      exact Nat.mod_eq_of_lt (by omega)
    · rfl
  clear hcnt hk h hN hU
  refine ⟨?_, ?_, ?_, ?_, ?_, ?_, ?_, ?_⟩
  · have c1 := hinv.cnt_le
    clear g0 g1 g5 hpc hinv
    rw [hcnt']
    split_ifs with hc
    · obtain ⟨hc1, rfl⟩ := hc
      omega
    · omega
  · intro b' w'
    have d1 := hinv.pc_le b' w'
    rw [hpc]
    clear g0 g1 g5 hpc hinv c3 c4 hcnt'
    split_ifs with h1
    · obtain ⟨rfl, rfl⟩ := h1
      omega
    · omega
  · intro b' hb'
    have d1 := hinv.lead_lo b' hb'
    rw [hpc, hcnt']
    clear g0 g1 g5 hpc hinv hcnt'
    split_ifs with h1 h2 h2
    all_goals (try obtain ⟨rfl, rfl⟩ := h1)
    all_goals (try obtain ⟨h3, rfl⟩ := h2)
    all_goals omega
  · intro b'
    have d2 := hinv.lead_hi b'
    rw [hpc, hcnt']
    clear g1 g5 hpc hinv hcnt' c3
    split_ifs with h1 h2 h2
    all_goals (try obtain ⟨rfl, rfl⟩ := h1)
    all_goals (try obtain ⟨h3, rfl⟩ := h2)
    all_goals omega
  · intro b'
    have d2 := hinv.lead_done b'
    rw [hpc, hcnt']
    clear g0 g1 g5 hpc hinv hcnt'
    split_ifs with h1 h2 h2
    all_goals (try obtain ⟨rfl, rfl⟩ := h1)
    all_goals (try obtain ⟨h3, rfl⟩ := h2)
    all_goals omega
  · intro b' w' w'' hw''
    have d1 := hinv.bar1 b' w' w'' hw''
    rw [hpc, hpc]
    clear g0 g5 hpc hinv hcnt' c3 c4
    split_ifs with h1 h2 h2
    all_goals (try obtain ⟨rfl, rfl⟩ := h1)
    all_goals (try obtain ⟨rfl, rfl⟩ := h2)
    all_goals (try have d3 := fun hh => g1 hh w'' hw'')
    all_goals clear g1
    all_goals omega
  · intro b' w' w'' hw''
    have d1 := hinv.bar5 b' w' w'' hw''
    rw [hpc, hpc]
    clear g0 g1 hpc hinv hcnt' c3 c4
    split_ifs with h1 h2 h2
    all_goals (try obtain ⟨rfl, rfl⟩ := h1)
    all_goals (try obtain ⟨rfl, rfl⟩ := h2)
    all_goals (try have d3 := fun hh => g5 hh w'' hw'')
    all_goals clear g5
    all_goals omega
  · intro b' w' hb'
    have d1 := hinv.idle b' w' hb'
    rw [hpc]
    clear g0 g1 g5 hpc hinv hcnt' c3 c4
    split_ifs with h1
    · omega
    · exact d1

theorem lane_wave_lt {α : Type} (K : Launch α) (hWs : 0 < K.waveSize) {i : Nat}
    (hi : i < K.blockDim) : i / K.waveSize < K.numWaves := by
  unfold Launch.numWaves
  rw [Nat.div_lt_iff_lt_mul hWs]
  have h1 := Nat.div_add_mod (K.blockDim + K.waveSize - 1) K.waveSize
  have h2 := Nat.mod_lt (K.blockDim + K.waveSize - 1) hWs
  have h3 : K.waveSize * ((K.blockDim + K.waveSize - 1) / K.waveSize)
      = (K.blockDim + K.waveSize - 1) / K.waveSize * K.waveSize := Nat.mul_comm _ _
  omega

theorem SerInv.cnt_eq {α : Type} {K : Launch α} {s : State α} {b w : Nat}
    (hinv : SerInv K s) (hb : b < K.gridDim) (hw : w < K.numWaves)
    (h2 : 2 ≤ s.pc b w) (h4 : s.pc b w ≤ 4) : s.cnt = b := by
  have hW : 0 < K.numWaves := by omega
  have c1 := hinv.bar1 b w 0 hW
  have c2 := hinv.lead_hi b
  have c3 := hinv.lead_lo b hb
  have c4 := hinv.bar5 b 0 w hw
  have c5 := hinv.pc_le b 0
  omega

theorem SerInv.next_idle {α : Type} {K : Launch α} {s : State α} {b w : Nat}
    (hinv : SerInv K s) (hW : 0 < K.numWaves) (hb : s.cnt < b) : s.pc b w ≤ 1 := by
  have c1 := hinv.bar1 b w 0 hW
  have c2 := hinv.lead_hi b
  omega

theorem SerData.data_step {α : Type} {K : Launch α} {o0 : Nat → α} {s s' : State α} {b w : Nat}
    (hk : K.kernel = simple_workgroup_reduce true) (hN : K.gridDim < U32)
    (hs : K.macros.supported = true) (hL : K.blockDim ≤ 1073741824)
    (hWs : 0 < K.waveSize) (hb : b < K.gridDim) (hw : w < K.numWaves)
    (hinv : SerInv K s) (hd : SerData K o0 s) (h : exec K s b w = some s') :
    SerData K o0 s' := by
  have hW : 0 < K.numWaves := by omega
  have hceq := hinv.cnt_eq hb hw
  rcases exec_serialized hk h with ⟨hp, hc, rfl⟩ | ⟨hp, hc, rfl⟩ | ⟨hp, rfl⟩ | ⟨hp, rfl⟩ |
    ⟨hp, rfl⟩ | ⟨hp, hc, rfl⟩ | ⟨hp, hw0, rfl⟩ | ⟨hp, hw0, rfl⟩
  · -- spin_eq
    refine ⟨?_, ?_, ?_⟩ <;> intro i hi <;> simp only [State.advance]
    · have e := hd.out_eq i hi
      by_cases hc1 : s.cnt = b ∧ i / K.waveSize = w
      · rw [hc1.1, hc1.2, hp] at e; rw [hc1.1] ; simp [hc1.2, hp] at e ⊢ ; exact e
      · simp only [hc1, if_false]; exact e
    · have e := hd.o_eq i hi
      by_cases hc1 : s.cnt = b ∧ i / K.waveSize = w
      · simp [hc1, hp]
      · simp only [hc1, if_false]; exact e
    · have e := hd.i_eq i hi
      by_cases hc1 : s.cnt = b ∧ i / K.waveSize = w
      · simp [hc1, hp]
      · simp only [hc1, if_false]; exact e
  · -- barrier of wait_eq
    refine ⟨?_, ?_, ?_⟩ <;> intro i hi <;> simp only [State.advance]
    · have e := hd.out_eq i hi
      by_cases hc1 : s.cnt = b ∧ i / K.waveSize = w
      · rw [hc1.1, hc1.2, hp] at e; rw [hc1.1] ; simp [hc1.2, hp] at e ⊢ ; exact e
      · simp only [hc1, if_false]; exact e
    · have e := hd.o_eq i hi
      by_cases hc1 : s.cnt = b ∧ i / K.waveSize = w
      · simp [hc1, hp]
      · simp only [hc1, if_false]; exact e
    · have e := hd.i_eq i hi
      by_cases hc1 : s.cnt = b ∧ i / K.waveSize = w
      · simp [hc1, hp]
      · simp only [hc1, if_false]; exact e
  · -- load_out
    have hcb : s.cnt = b := hceq (by omega) (by omega)
    refine ⟨?_, ?_, ?_⟩ <;> intro i hi <;> simp only [State.advance, Launch.lane]
    · have e := hd.out_eq i hi
      by_cases hv : i / K.waveSize = w
      · rw [hcb, hv, hp] at e; rw [hcb]; simp [hv, hp] at e ⊢; exact e
      · simp only [hv, and_false, if_false]; exact e
    · have e := hd.o_eq i hi
      have e' := hd.out_eq i hi
      by_cases hv : i / K.waveSize = w
      · rw [hcb, hv, hp] at e'; rw [hcb]; simp [hv, hp, hi] at e' ⊢; exact e'
      · simp only [hv, and_false, false_and, if_false]; exact e
    · have e := hd.i_eq i hi
      by_cases hv : i / K.waveSize = w
      · simp [hcb, hv, hp]
      · simp only [hv, and_false, if_false]; exact e
  · -- load_in
    have hcb : s.cnt = b := hceq (by omega) (by omega)
    refine ⟨?_, ?_, ?_⟩ <;> intro i hi <;> simp only [State.advance, Launch.lane]
    · have e := hd.out_eq i hi
      by_cases hv : i / K.waveSize = w
      · rw [hcb, hv, hp] at e; rw [hcb]; simp [hv, hp] at e ⊢; exact e
      · simp only [hv, and_false, if_false]; exact e
    · have e := hd.o_eq i hi
      by_cases hv : i / K.waveSize = w
      · rw [hcb, hv, hp] at e; rw [hcb]; simp [hv, hp] at e ⊢; exact e
      · simp only [hv, and_false, if_false]; exact e
    · have e := hd.i_eq i hi
      by_cases hv : i / K.waveSize = w
      · simp [hcb, hv, hp, hi]
      · simp only [hv, and_false, false_and, if_false]; exact e
  · -- store_out
    have hcb : s.cnt = b := hceq (by omega) (by omega)
    rw [store_wave_supported K s b w hs hL hWs]
    refine ⟨?_, ?_, ?_⟩ <;> intro i hi <;> simp only [State.advance, Launch.lane]
    · have e := hd.out_eq i hi
      have e1 := hd.o_eq i hi
      have e2 := hd.i_eq i hi
      by_cases hv : i / K.waveSize = w
      · rw [hcb, hv, hp] at e1 e2
        rw [hcb]
        simp [hv, hp, hi, accum]
        rw [e1 (by omega) (by omega), e2 rfl]
      · simp only [hv, and_false, false_and, if_false]; exact e
    · have e := hd.o_eq i hi
      by_cases hv : i / K.waveSize = w
      · simp [hcb, hv, hp]
      · simp only [hv, and_false, if_false]; exact e
    · have e := hd.i_eq i hi
      by_cases hv : i / K.waveSize = w
      · simp [hcb, hv, hp]
      · simp only [hv, and_false, if_false]; exact e
  · -- barrier of inc
    refine ⟨?_, ?_, ?_⟩ <;> intro i hi <;> simp only [State.advance]
    · have e := hd.out_eq i hi
      by_cases hc1 : s.cnt = b ∧ i / K.waveSize = w
      · rw [hc1.1, hc1.2, hp] at e; rw [hc1.1] ; simp [hc1.2, hp] at e ⊢ ; exact e
      · simp only [hc1, if_false]; exact e
    · have e := hd.o_eq i hi
      by_cases hc1 : s.cnt = b ∧ i / K.waveSize = w
      · simp [hc1, hp]
      · simp only [hc1, if_false]; exact e
    · have e := hd.i_eq i hi
      by_cases hc1 : s.cnt = b ∧ i / K.waveSize = w
      · simp [hc1, hp]
      · simp only [hc1, if_false]; exact e
  · -- atomic_add by the wavefront of thread 0
    subst hw0
    have c3 := hinv.lead_lo b hb
    have c4 := hinv.lead_hi b
    have hcb : s.cnt = b := by omega
    have hU : U32 = 4294967296 := rfl
    have hmod : (s.cnt + 1) % U32 = b + 1 := by
      rw [hcb]; exact Nat.mod_eq_of_lt (by omega)
    refine ⟨?_, ?_, ?_⟩ <;> intro i hi <;> simp only [State.advance, hmod]
    all_goals
      have hidle : s.pc (b + 1) (i / K.waveSize) ≤ 1 :=
        hinv.next_idle hW (by omega)
      have hne : ¬ (b + 1 = b ∧ i / K.waveSize = 0) := by omega
      simp only [hne, if_false]
    · have e := hd.out_eq i hi
      have c5 := hinv.bar5 b 0 (i / K.waveSize) (lane_wave_lt K hWs hi)
      rw [hcb] at e
      have h5 : 5 ≤ s.pc b (i / K.waveSize) := by omega
      have h6 : ¬ 5 ≤ s.pc (b + 1) (i / K.waveSize) := by omega
      simp only [h5, if_true] at e
      simp only [h6, if_false]
      exact e
    · intro h3; omega
    · intro h3; omega
  · -- atomic_add skipped by the other wavefronts
    refine ⟨?_, ?_, ?_⟩ <;> intro i hi <;> simp only [State.advance]
    · have e := hd.out_eq i hi
      by_cases hc1 : s.cnt = b ∧ i / K.waveSize = w
      · rw [hc1.1, hc1.2, hp] at e; rw [hc1.1] ; simp [hc1.2, hp] at e ⊢ ; exact e
      · simp only [hc1, if_false]; exact e
    · have e := hd.o_eq i hi
      by_cases hc1 : s.cnt = b ∧ i / K.waveSize = w
      · simp [hc1, hp]
      · simp only [hc1, if_false]; exact e
    · have e := hd.i_eq i hi
      by_cases hc1 : s.cnt = b ∧ i / K.waveSize = w
      · simp [hc1, hp]
      · simp only [hc1, if_false]; exact e

theorem tile_eq {α : Type} (K : Launch α) (b i : Nat) (hb : b < 16777216) :
    K.tile b i = K.p_in (b * 256 + i) := by
  unfold Launch.tile BLOCK_SIZE U32
  rw [Nat.mod_eq_of_lt (by omega)]

/-- As long as no tile offset wraps, the accumulation done by the kernel is
the block-order sum with stride 256. -/
theorem accum_eq_block_order_sum {α : Type} (K : Launch α) (o0 : Nat → α) (i : Nat) :
    ∀ n, n ≤ 16777216 → accum K o0 i n = block_order_sum K.add K.p_in 256 o0 i n := by
  intro n
  induction n with
  | zero => intro _; rfl
  | succ n ih =>
      intro hn
      simp only [accum, block_order_sum]
      rw [ih (by omega), tile_eq K n i (by omega)]

theorem block_order_sum_succ {α : Type} (add : α → α → α) (p_in : Nat → α) (stride : Nat)
    (o0 : Nat → α) (i n : Nat) :
    block_order_sum add p_in stride o0 i (n + 1)
      = add (p_in (n * stride + i)) (block_order_sum add p_in stride o0 i n) := rfl

/-- The loop of `host_workgroup_reduce` and the block-order sum from zero
agree when the addition is commutative. -/
theorem host_loop_eq {α : Type} (add : α → α → α) (zero : α) (p_in o0 : Nat → α)
    (stride l : Nat) (hcomm : ∀ x y, add x y = add y x) (hz : o0 l = zero) :
    ∀ n, (List.range n).foldl (fun sum g => add sum (p_in (g * stride + l))) zero
      = block_order_sum add p_in stride o0 l n := by
  intro n
  induction n with
  | zero => simp [block_order_sum, hz]
  | succ n ih =>
      rw [List.range_succ, List.foldl_append, ih]
      simp only [List.foldl_cons, List.foldl_nil, block_order_sum]
      exact hcomm _ _

theorem host_workgroup_reduce_eq {α : Type} (add : α → α → α) (zero : α)
    (p_in p_out o0 : Nat → α) (N l : Nat) (hcomm : ∀ x y, add x y = add y x)
    (hz : o0 l = zero) (hN : N ≤ 8388608) (hl : l < 256) :
    ∃ h, host_workgroup_reduce add zero p_in p_out N 256 = some h ∧
      h l = block_order_sum add p_in 256 o0 l N := by
  have hle : N * 256 ≤ INT_LIMIT := by unfold INT_LIMIT; omega
  refine ⟨_, if_pos hle, ?_⟩
  simp only [hl, if_true]
  exact host_loop_eq add zero p_in o0 256 l hcomm hz N


/-- Over the naturals a block-order sum is at least each of its terms. -/
theorem term_le_block_order_sum (p_in o0 : Nat → Nat) (stride i : Nat) :
    ∀ n k, k < n → p_in (k * stride + i) ≤ block_order_sum Nat.add p_in stride o0 i n := by
  intro n
  induction n with
  | zero => intro k hk; omega
  | succ n ih =>
      intro k hk
      have e : block_order_sum Nat.add p_in stride o0 i (n + 1)
          = p_in (n * stride + i) + block_order_sum Nat.add p_in stride o0 i n := rfl
      rw [e]
      by_cases hkn : k = n
      · subst hkn; omega
      · have := ih k (by omega); omega


theorem fetch_outoforder (b k : Nat) :
    (simple_workgroup_reduce false b)[k]? =
      match k with
      | 0 => some (Instr.spin_cas 0 1)
      | 1 => some Instr.s_barrier
      | 2 => some Instr.load_out
      | 3 => some Instr.load_in
      | 4 => some Instr.store_out
      | 5 => some (Instr.spin_cas 1 0)
      | 6 => some Instr.s_barrier
      | _ => none := by
  rcases k with _|_|_|_|_|_|_|k <;>
    simp [simple_workgroup_reduce, aquire, release, wait_set]

theorem exec_outoforder {α : Type} {K : Launch α} {s s' : State α} {b w : Nat}
    (hk : K.kernel = simple_workgroup_reduce false) (h : exec K s b w = some s') :
    (s.pc b w = 0 ∧ w = 0 ∧ s.cnt = 0 ∧ s' = State.advance { s with cnt := 1 } b w) ∨
    (s.pc b w = 0 ∧ w ≠ 0 ∧ s' = s.advance b w) ∨
    (s.pc b w = 1 ∧ (∀ w', w' < K.numWaves → 1 ≤ s.pc b w') ∧ s' = s.advance b w) ∨
    (s.pc b w = 2 ∧ s' = State.advance
        { s with o_data := fun b' i =>
            if b' = b ∧ K.lane w i then s.p_out i else s.o_data b' i } b w) ∨
    (s.pc b w = 3 ∧ s' = State.advance
        { s with i_data := fun b' i =>
            if b' = b ∧ K.lane w i then K.tile b i else s.i_data b' i } b w) ∨
    (s.pc b w = 4 ∧ s' = State.advance { s with p_out := store_wave K s b w } b w) ∨
    (s.pc b w = 5 ∧ w = 0 ∧ s.cnt = 1 ∧ s' = State.advance { s with cnt := 0 } b w) ∨
    (s.pc b w = 5 ∧ w ≠ 0 ∧ s' = s.advance b w) ∨
    (s.pc b w = 6 ∧ (∀ w', w' < K.numWaves → 6 ≤ s.pc b w') ∧ s' = s.advance b w) := by
  unfold exec at h
  rw [hk, fetch_outoforder] at h
  rcases hpc : s.pc b w with _|_|_|_|_|_|_|k <;> rw [hpc] at h <;>
    simp only [execInstr, wait_set_spins, atomicCAS_system, atomic_load_fp32, hpc] at h
  · by_cases hw : w = 0
    · simp [hw] at h
      obtain ⟨h1, h2⟩ := h
      simp [hw, h1, ← h2, hpc]
    · simp [hw] at h
      simp [hw, ← h]
  · by_cases ha : arrived K s b (0 + 1) = true
    · simp [ha] at h
      rw [arrived_iff] at ha
      simp at ha
      simp [← h]
      exact ha
    · simp [ha] at h
  · simp at h; simp [← h]
  · simp at h; simp [← h]
  · simp at h; simp [← h]
  · by_cases hw : w = 0
    · simp [hw] at h
      obtain ⟨h1, h2⟩ := h
      simp [hw, h1, ← h2, hpc]
    · simp [hw] at h
      simp [hw, ← h]
  · by_cases ha : arrived K s b (0 + 1 + 1 + 1 + 1 + 1 + 1) = true
    · simp [ha] at h
      rw [arrived_iff] at ha
      simp at ha
      simp [← h]
      exact ha
    · simp [ha] at h
  · simp at h

theorem exec_outoforder_ctrl {α : Type} {K : Launch α} {s s' : State α} {b w : Nat}
    (hk : K.kernel = simple_workgroup_reduce false) (h : exec K s b w = some s') :
    s.pc b w ≤ 6 ∧
    (∀ b' w', s'.pc b' w' = if b' = b ∧ w' = w then s.pc b w + 1 else s.pc b' w') ∧
    (s.pc b w = 0 → w = 0 → s.cnt = 0) ∧
    (s.pc b w = 5 → w = 0 → s.cnt = 1) ∧
    (s.pc b w = 1 → ∀ w', w' < K.numWaves → 1 ≤ s.pc b w') ∧
    (s.pc b w = 6 → ∀ w', w' < K.numWaves → 6 ≤ s.pc b w') ∧
    s'.cnt = (if s.pc b w = 0 ∧ w = 0 then 1 else if s.pc b w = 5 ∧ w = 0 then 0 else s.cnt) := by
  rcases exec_outoforder hk h with ⟨hp, hw0, hc, rfl⟩ | ⟨hp, hw0, rfl⟩ | ⟨hp, hc, rfl⟩ |
    ⟨hp, rfl⟩ | ⟨hp, rfl⟩ | ⟨hp, rfl⟩ | ⟨hp, hw0, hc, rfl⟩ | ⟨hp, hw0, rfl⟩ | ⟨hp, hc, rfl⟩ <;>
  (try subst hw0) <;> simp [State.advance, hp] <;> (try simp [*]) <;>
  first | done | assumption

theorem OooInv.ooo_step {α : Type} {K : Launch α} {s s' : State α} {b w : Nat}
    (hk : K.kernel = simple_workgroup_reduce false) (hb : b < K.gridDim)
    (hinv : OooInv K s) (h : exec K s b w = some s') : OooInv K s' := by
  obtain ⟨hp6, hpc, g0, g5, g1, g6, hcnt⟩ := exec_outoforder_ctrl hk h
  have c1 := hinv.holder_cnt b
  clear hk h
  refine ⟨?_, ?_, ?_, ?_, ?_, ?_, ?_⟩
  · intro b' w'
    have d1 := hinv.pc_le b' w'
    rw [hpc]
    clear g0 g1 g5 g6 hpc hinv hcnt c1
    split_ifs with h1
    · obtain ⟨rfl, rfl⟩ := h1
      omega
    · omega
  · have d1 := hinv.cnt_le
    rw [hcnt]
    clear g0 g1 g5 g6 hpc hinv hcnt c1
    split_ifs <;> omega
  · intro b'
    have d1 := hinv.holder_cnt b'
    have d2 := hinv.uniq b b'
    rw [hpc, hcnt]
    clear g1 g6 hpc hinv hcnt
    split_ifs with h1 h2 h3 h2 h3
    all_goals (try obtain ⟨rfl, rfl⟩ := h1)
    all_goals (try obtain ⟨h4, rfl⟩ := h2)
    all_goals (try obtain ⟨h5, rfl⟩ := h3)
    all_goals omega
  · intro b1 b2
    have d1 := hinv.holder_cnt b1
    have d2 := hinv.holder_cnt b2
    have d3 := hinv.uniq b1 b2
    rw [hpc, hpc]
    clear g1 g5 g6 hpc hinv hcnt
    split_ifs with h1 h2 h2
    all_goals (try obtain ⟨rfl, rfl⟩ := h1)
    all_goals (try obtain ⟨rfl, rfl⟩ := h2)
    all_goals omega
  · rw [hcnt]
    intro hc
    by_cases h0 : s.pc b w = 0 ∧ w = 0
    · obtain ⟨h0, rfl⟩ := h0
      refine ⟨b, hb, ?_⟩
      rw [hpc]
      simp [h0]
    · by_cases h5 : s.pc b w = 5 ∧ w = 0
      · exfalso
        rw [if_neg h0, if_pos h5] at hc
        omega
      · rw [if_neg h0, if_neg h5] at hc
        obtain ⟨b0, hb0, hlo, hhi⟩ := hinv.held hc
        refine ⟨b0, hb0, ?_⟩
        rw [hpc]
        clear g1 g6 hpc hinv hcnt
        split_ifs with h1
        · obtain ⟨rfl, rfl⟩ := h1
          omega
        · omega
  · intro b' w' w'' hw''
    have d1 := hinv.bar1 b' w' w'' hw''
    rw [hpc, hpc]
    clear g0 g5 g6 hpc hinv hcnt c1
    split_ifs with h1 h2 h2
    all_goals (try obtain ⟨rfl, rfl⟩ := h1)
    all_goals (try obtain ⟨rfl, rfl⟩ := h2)
    all_goals (try have d3 := fun hh => g1 hh w'' hw'')
    all_goals clear g1
    all_goals omega
  · intro b' w' w'' hw''
    have d1 := hinv.bar6 b' w' w'' hw''
    have d2 := hinv.pc_le b' w''
    rw [hpc, hpc]
    clear g0 g5 g1 hpc hinv hcnt c1
    split_ifs with h1 h2 h2
    all_goals (try obtain ⟨rfl, rfl⟩ := h1)
    all_goals (try obtain ⟨rfl, rfl⟩ := h2)
    all_goals (try have d3 := fun hh => g6 hh w'' hw'')
    all_goals clear g6
    all_goals omega

/-- Out-of-order kernel: a step of a wavefront other than that of thread 0
leaves the data of the threads of wavefront 0 alone. -/
theorem OooData.other_wave {α : Type} {K : Launch α} {o0 : Nat → α} {s s' : State α}
    {b w : Nat} {ord : List Nat}
    (hk : K.kernel = simple_workgroup_reduce false)
    (hs : K.macros.supported = true) (hL : K.blockDim ≤ 1073741824) (hWs : 0 < K.waveSize)
    (hw0 : w ≠ 0)
    (hd : OooData K o0 s ord) (h : exec K s b w = some s') : OooData K o0 s' ord := by
  have hpc0 : ∀ b', s'.pc b' 0 = s.pc b' 0 := by
    intro b'
    rw [(exec_pc h).2]
    have hne : ¬ (b' = b ∧ 0 = w) := by omega
    rw [if_neg hne]
  have hlane : ∀ i, K.lane 0 i → ¬ K.lane w i := by
    intro i h0 hw
    exact hw0 (hw.1.symm.trans h0.1)
  have hout : ∀ i, K.lane 0 i → s'.p_out i = s.p_out i := by
    intro i hi
    have hl := hlane i hi
    rcases exec_outoforder hk h with ⟨_, _, _, rfl⟩ | ⟨_, _, rfl⟩ | ⟨_, _, rfl⟩ |
      ⟨_, rfl⟩ | ⟨_, rfl⟩ | ⟨_, rfl⟩ | ⟨_, _, _, rfl⟩ | ⟨_, _, rfl⟩ | ⟨_, _, rfl⟩ <;>
      simp [State.advance, store_wave_supported K s b w hs hL hWs, hl]
  have hod : ∀ b' i, K.lane 0 i → s'.o_data b' i = s.o_data b' i := by
    intro b' i hi
    have hl := hlane i hi
    rcases exec_outoforder hk h with ⟨_, _, _, rfl⟩ | ⟨_, _, rfl⟩ | ⟨_, _, rfl⟩ |
      ⟨_, rfl⟩ | ⟨_, rfl⟩ | ⟨_, rfl⟩ | ⟨_, _, _, rfl⟩ | ⟨_, _, rfl⟩ | ⟨_, _, rfl⟩ <;>
      simp [State.advance, hl]
  have hid : ∀ b' i, K.lane 0 i → s'.i_data b' i = s.i_data b' i := by
    intro b' i hi
    have hl := hlane i hi
    rcases exec_outoforder hk h with ⟨_, _, _, rfl⟩ | ⟨_, _, rfl⟩ | ⟨_, _, rfl⟩ |
      ⟨_, rfl⟩ | ⟨_, rfl⟩ | ⟨_, rfl⟩ | ⟨_, _, _, rfl⟩ | ⟨_, _, rfl⟩ | ⟨_, _, rfl⟩ <;>
      simp [State.advance, hl]
  refine ⟨hd.nodup, ?_, ?_, ?_, ?_⟩
  · intro b'
    rw [hpc0]
    exact hd.mem b'
  · intro i hi
    rw [hout i hi]
    exact hd.out_eq i hi
  · intro b' i hi
    rw [hpc0, hod b' i hi]
    exact hd.o_eq b' i hi
  · intro b' i hi
    rw [hpc0, hid b' i hi]
    exact hd.i_eq b' i hi

/-- Out-of-order kernel: a step of the wavefront of thread 0 that is not its
store leaves the order of commits as it is. -/
theorem OooData.lead_step {α : Type} {K : Launch α} {o0 : Nat → α} {s s' : State α}
    {b : Nat} {ord : List Nat}
    (hk : K.kernel = simple_workgroup_reduce false) (hp : s.pc b 0 ≠ 4)
    (hd : OooData K o0 s ord) (h : exec K s b 0 = some s') : OooData K o0 s' ord := by
  have hpc : ∀ b', s'.pc b' 0 = if b' = b then s.pc b 0 + 1 else s.pc b' 0 := by
    intro b'
    rw [(exec_pc h).2]
    by_cases hb : b' = b
    · simp [hb]
    · simp [hb]
  have hout : ∀ i, s'.p_out i = s.p_out i := by
    intro i
    rcases exec_outoforder hk h with ⟨_, _, _, rfl⟩ | ⟨_, _, rfl⟩ | ⟨_, _, rfl⟩ |
      ⟨_, rfl⟩ | ⟨_, rfl⟩ | ⟨h4, rfl⟩ | ⟨_, _, _, rfl⟩ | ⟨_, _, rfl⟩ | ⟨_, _, rfl⟩ <;>
      first
      | exact absurd h4 hp
      | rfl
  have hod : ∀ b' i, K.lane 0 i →
      s'.o_data b' i = if b' = b ∧ s.pc b 0 = 2 then s.p_out i else s.o_data b' i := by
    intro b' i hi
    rcases exec_outoforder hk h with ⟨h0, _, _, rfl⟩ | ⟨h0, _, rfl⟩ | ⟨h0, _, rfl⟩ |
      ⟨h0, rfl⟩ | ⟨h0, rfl⟩ | ⟨h0, rfl⟩ | ⟨h0, _, _, rfl⟩ | ⟨h0, _, rfl⟩ | ⟨h0, _, rfl⟩ <;>
      simp [State.advance, h0, hi]
  have hid : ∀ b' i, K.lane 0 i →
      s'.i_data b' i = if b' = b ∧ s.pc b 0 = 3 then K.tile b i else s.i_data b' i := by
    intro b' i hi
    rcases exec_outoforder hk h with ⟨h0, _, _, rfl⟩ | ⟨h0, _, rfl⟩ | ⟨h0, _, rfl⟩ |
      ⟨h0, rfl⟩ | ⟨h0, rfl⟩ | ⟨h0, rfl⟩ | ⟨h0, _, _, rfl⟩ | ⟨h0, _, rfl⟩ | ⟨h0, _, rfl⟩ <;>
      simp [State.advance, h0, hi]
  refine ⟨hd.nodup, ?_, ?_, ?_, ?_⟩
  · intro b'
    rw [hpc, hd.mem b']
    by_cases hb : b' = b
    · subst hb
      simp only [if_true]
      constructor
      · rintro ⟨h1, h2⟩; exact ⟨h1, by omega⟩
      · rintro ⟨h1, h2⟩; exact ⟨h1, by omega⟩
    · simp [hb]
  · intro i hi
    rw [hout i]
    exact hd.out_eq i hi
  · intro b' i hi
    rw [hpc, hod b' i hi]
    by_cases hb : b' = b
    · subst hb
      simp only [if_true, true_and]
      intro h3 h4
      by_cases h2 : s.pc b' 0 = 2
      · rw [if_pos h2]
        exact hd.out_eq i hi
      · rw [if_neg h2]
        exact hd.o_eq b' i hi (by omega) (by omega)
    · simp only [hb, if_false, false_and]
      exact hd.o_eq b' i hi
  · intro b' i hi
    rw [hpc, hid b' i hi]
    by_cases hb : b' = b
    · subst hb
      simp only [if_true, true_and]
      intro h4
      have h3 : s.pc b' 0 = 3 := by omega
      rw [if_pos h3]
    · simp only [hb, if_false, false_and]
      exact hd.i_eq b' i hi

/-- Out-of-order kernel: the store of the wavefront of thread 0 of workgroup
`b` appends `b` to the order of commits. -/
theorem OooData.lead_store {α : Type} {K : Launch α} {o0 : Nat → α} {s s' : State α}
    {b : Nat} {ord : List Nat}
    (hk : K.kernel = simple_workgroup_reduce false)
    (hs : K.macros.supported = true) (hL : K.blockDim ≤ 1073741824) (hWs : 0 < K.waveSize)
    (hb : b < K.gridDim)
    (hp : s.pc b 0 = 4) (hinv : OooInv K s)
    (hd : OooData K o0 s ord) (h : exec K s b 0 = some s') :
    OooData K o0 s' (ord ++ [b]) := by
  have hs' : s' = State.advance
        { s with p_out := fun i =>
            if K.lane 0 i then K.add (s.i_data b i) (s.o_data b i) else s.p_out i } b 0 := by
    rw [← store_wave_supported K s b 0 hs hL hWs]
    rcases exec_outoforder hk h with ⟨h0, _, _, _⟩ | ⟨h0, _, _⟩ | ⟨h0, _, _⟩ |
      ⟨h0, _⟩ | ⟨h0, _⟩ | ⟨_, h1⟩ | ⟨h0, _, _, _⟩ | ⟨h0, _, _⟩ | ⟨h0, _, _⟩ <;>
      first
      | exact h1
      | omega
  subst hs'
  have hnot : b ∉ ord := by
    intro hm
    have := ((hd.mem b).mp hm).2
    omega
  have hpc : ∀ b', (State.advance
        { s with p_out := fun i =>
            if K.lane 0 i then K.add (s.i_data b i) (s.o_data b i) else s.p_out i } b 0).pc b' 0
      = if b' = b then 5 else s.pc b' 0 := by
    intro b'
    simp only [State.advance, hp]
    by_cases hb' : b' = b
    · simp [hb']
    · simp [hb']
  have hother : ∀ b', b' ≠ b → ¬ (3 ≤ s.pc b' 0 ∧ s.pc b' 0 ≤ 4) := by
    intro b' hne hh
    exact hne (hinv.uniq b' b (by omega) (by omega) (by omega) (by omega))
  refine ⟨?_, ?_, ?_, ?_, ?_⟩
  · exact List.Nodup.append hd.nodup (List.nodup_singleton b)
      (fun a ha hab => hnot (by rw [List.mem_singleton] at hab; exact hab ▸ ha))
  · intro b'
    rw [hpc, List.mem_append, hd.mem b', List.mem_singleton]
    by_cases hb' : b' = b
    · subst hb'
      simp [hb]
    · simp [hb']
  · intro i hi
    simp only [State.advance, hi, if_true, accum_order, List.foldl_append, List.foldl_cons,
      List.foldl_nil]
    rw [hd.i_eq b i hi hp, hd.o_eq b i hi (by omega) (by omega)]
    rfl
  · intro b' i hi
    rw [hpc]
    by_cases hb' : b' = b
    · subst hb'
      simp only [if_true]
      intro _ h4
      omega
    · simp only [hb', if_false]
      intro h3 h4
      exact absurd ⟨h3, h4⟩ (hother b' hb')
  · intro b' i hi
    rw [hpc]
    by_cases hb' : b' = b
    · subst hb'
      simp
    · simp only [hb', if_false]
      intro h4
      exact absurd ⟨by omega, by omega⟩ (hother b' hb')

/-- Out-of-order kernel: every step keeps the data invariant of wavefront 0,
for some order of commits. -/
theorem OooData.data_ooo_step {α : Type} {K : Launch α} {o0 : Nat → α} {s s' : State α}
    {b w : Nat}
    (hk : K.kernel = simple_workgroup_reduce false)
    (hs : K.macros.supported = true) (hL : K.blockDim ≤ 1073741824) (hWs : 0 < K.waveSize)
    (hb : b < K.gridDim)
    (hinv : OooInv K s) (hd : ∃ ord, OooData K o0 s ord) (h : exec K s b w = some s') :
    ∃ ord, OooData K o0 s' ord := by
  obtain ⟨ord, hd⟩ := hd
  by_cases hw0 : w = 0
  · subst hw0
    by_cases hp : s.pc b 0 = 4
    · exact ⟨ord ++ [b], hd.lead_store hk hs hL hWs hb hp hinv h⟩
    · exact ⟨ord, hd.lead_step hk hp h⟩
  · exact ⟨ord, hd.other_wave hk hs hL hWs hw0 h⟩

theorem accum_order_eq_order_sum {α : Type} (K : Launch α) (o0 : Nat → α) (i : Nat)
    (ord : List Nat) (hord : ∀ b, b ∈ ord → b < 16777216) :
    accum_order K o0 i ord = order_sum K.add K.p_in 256 o0 i ord := by
  unfold accum_order order_sum
  generalize o0 i = a
  induction ord generalizing a with
  | nil => rfl
  | cons b rest ih =>
      simp only [List.foldl_cons]
      rw [tile_eq K b i (hord b (List.mem_cons_self _ _))]
      exact ih (fun b' hb' => hord b' (List.mem_cons_of_mem _ hb')) _

theorem exists_min_wave {α : Type} (K : Launch α) (s : State α) (b : Nat)
    (hW : 0 < K.numWaves) :
    ∃ w, w < K.numWaves ∧ ∀ w', w' < K.numWaves → s.pc b w ≤ s.pc b w' := by
  obtain ⟨w, hw, hmin⟩ := Finset.exists_min_image (Finset.range K.numWaves)
    (fun w => s.pc b w) ⟨0, Finset.mem_range.mpr hW⟩
  exact ⟨w, Finset.mem_range.mp hw, fun w' hw' => hmin w' (Finset.mem_range.mpr hw')⟩

/-- Serialized kernel: a wavefront that is behind no other wavefront of its
workgroup can move, unless it is thread 0 spinning on a counter that is not
its block index. -/
theorem enabled_serialized {α : Type} {K : Launch α} {s : State α} {b w : Nat}
    (hk : K.kernel = simple_workgroup_reduce true) (hp : s.pc b w ≤ 6)
    (hmin : ∀ w', w' < K.numWaves → s.pc b w ≤ s.pc b w')
    (hlead : w = 0 → s.pc b w = 0 → s.cnt = b) : ∃ s', exec K s b w = some s' := by
  unfold exec
  rw [hk, fetch_serialized]
  rcases hpc : s.pc b w with _|_|_|_|_|_|_|k
  · by_cases hw : w = 0
    · simp [execInstr, wait_eq_spins, ld, hw, hlead hw hpc]
    · simp [execInstr, hw]
  · have ha : arrived K s b (s.pc b w) = true := (arrived_iff K s b _).mpr hmin
    rw [hpc] at ha
    simp [execInstr, hpc, ha]
  · simp [execInstr]
  · simp [execInstr]
  · simp [execInstr]
  · have ha : arrived K s b (s.pc b w) = true := (arrived_iff K s b _).mpr hmin
    rw [hpc] at ha
    simp [execInstr, hpc, ha]
  · by_cases hw : w = 0
    · simp [execInstr, hw]
    · simp [execInstr, hw]
  · omega

/-- Out-of-order kernel: a wavefront that is behind no other wavefront of its
workgroup can move, unless it is thread 0 spinning on a CAS that fails. -/
theorem enabled_outoforder {α : Type} {K : Launch α} {s : State α} {b w : Nat}
    (hk : K.kernel = simple_workgroup_reduce false) (hp : s.pc b w ≤ 6)
    (hmin : ∀ w', w' < K.numWaves → s.pc b w ≤ s.pc b w')
    (hacq : w = 0 → s.pc b w = 0 → s.cnt = 0)
    (hrel : w = 0 → s.pc b w = 5 → s.cnt = 1) : ∃ s', exec K s b w = some s' := by
  unfold exec
  rw [hk, fetch_outoforder]
  rcases hpc : s.pc b w with _|_|_|_|_|_|_|k
  · by_cases hw : w = 0
    · simp [execInstr, wait_set_spins, atomicCAS_system, hw, hacq hw hpc]
    · simp [execInstr, hw]
  · have ha : arrived K s b (s.pc b w) = true := (arrived_iff K s b _).mpr hmin
    rw [hpc] at ha
    simp [execInstr, hpc, ha]
  · simp [execInstr]
  · simp [execInstr]
  · simp [execInstr]
  · by_cases hw : w = 0
    · simp [execInstr, wait_set_spins, atomicCAS_system, hw, hrel hw hpc]
    · simp [execInstr, hw]
  · have ha : arrived K s b (s.pc b w) = true := (arrived_iff K s b _).mpr hmin
    rw [hpc] at ha
    simp [execInstr, hpc, ha]
  · omega

theorem not_done_iff {α : Type} (K : Launch α) (s : State α) (n : Nat)
    (hlen : ∀ b, (K.kernel b).length = n) :
    ¬ s.allDone K ↔ ∃ b w, b < K.gridDim ∧ w < K.numWaves ∧ s.pc b w < n := by
  unfold State.allDone State.finished
  push_neg
  constructor
  · rintro ⟨b, hb, w, hw, h⟩
    exact ⟨b, w, hb, hw, by rw [hlen] at h; exact h⟩
  · rintro ⟨b, w, hb, hw, h⟩
    exact ⟨b, hb, w, hw, by rw [hlen]; exact h⟩

/-- Serialized protocol from a zero counter: no deadlock. -/
theorem SerInv.ser_live {α : Type} {K : Launch α} {s : State α}
    (hk : K.kernel = simple_workgroup_reduce true) (hinv : SerInv K s)
    (hnd : ¬ s.allDone K) :
    ∃ b w s', b < K.gridDim ∧ w < K.numWaves ∧ exec K s b w = some s' := by
  obtain ⟨b, w, hb, hw, hlt⟩ :=
    (not_done_iff K s 7 (fun b => by rw [hk]; exact kernel_length true b)).mp hnd
  have hW : 0 < K.numWaves := by omega
  by_cases hc : s.cnt < K.gridDim
  · obtain ⟨w0, hw0, hmin⟩ := exists_min_wave K s s.cnt hW
    have h1 := hmin 0 hW
    have h2 := hinv.lead_done s.cnt
    have h3 := hinv.pc_le s.cnt 0
    obtain ⟨s', he⟩ := enabled_serialized hk (by omega) hmin (fun _ _ => rfl)
    exact ⟨s.cnt, w0, s', hc, hw0, he⟩
  · obtain ⟨w0, hw0, hmin⟩ := exists_min_wave K s b hW
    have h1 := hmin w hw
    have h2 := hinv.lead_lo b hb
    have h3 := hinv.cnt_le
    have h4 := hmin 0 hW
    obtain ⟨s', he⟩ := enabled_serialized hk (by omega) hmin
      (fun e0 e1 => by subst e0; omega)
    exact ⟨b, w0, s', hb, hw0, he⟩

/-- Out-of-order protocol from a zero counter: no deadlock. -/
theorem OooInv.ooo_live {α : Type} {K : Launch α} {s : State α}
    (hk : K.kernel = simple_workgroup_reduce false) (hinv : OooInv K s)
    (hnd : ¬ s.allDone K) :
    ∃ b w s', b < K.gridDim ∧ w < K.numWaves ∧ exec K s b w = some s' := by
  obtain ⟨b, w, hb, hw, hlt⟩ :=
    (not_done_iff K s 7 (fun b => by rw [hk]; exact kernel_length false b)).mp hnd
  have hW : 0 < K.numWaves := by omega
  have hcl := hinv.cnt_le
  by_cases hc : s.cnt = 1
  · obtain ⟨b0, hb0, hlo, hhi⟩ := hinv.held hc
    obtain ⟨w0, hw0, hmin⟩ := exists_min_wave K s b0 hW
    have h1 := hmin 0 hW
    obtain ⟨s', he⟩ := enabled_outoforder hk (by omega) hmin
      (fun e0 e1 => by subst e0; omega) (fun _ _ => hc)
    exact ⟨b0, w0, s', hb0, hw0, he⟩
  · have hc0 : s.cnt = 0 := by omega
    by_cases hz : ∃ b1, b1 < K.gridDim ∧ s.pc b1 0 = 0
    · obtain ⟨b1, hb1, hz1⟩ := hz
      obtain ⟨w0, hw0, hmin⟩ := exists_min_wave K s b1 hW
      have h1 := hmin 0 hW
      obtain ⟨s', he⟩ := enabled_outoforder hk (by omega) hmin
        (fun _ _ => hc0) (fun e0 e1 => by subst e0; omega)
      exact ⟨b1, w0, s', hb1, hw0, he⟩
    · push_neg at hz
      have hz1 := hz b hb
      have hz2 := hinv.holder_cnt b
      obtain ⟨w0, hw0, hmin⟩ := exists_min_wave K s b hW
      have h1 := hmin w hw
      obtain ⟨s', he⟩ := enabled_outoforder hk (by omega) hmin
        (fun e0 e1 => by subst e0; omega) (fun e0 e1 => by subst e0; omega)
      exact ⟨b, w0, s', hb, hw0, he⟩

theorem SerInv.ser_at_launch {α : Type} (K : Launch α) (o : Nat → α) (r : α) :
    SerInv K (State.launch 0 o r) := by
  constructor <;> simp [State.launch]

theorem SerData.data_at_launch {α : Type} (K : Launch α) (o0 : Nat → α) (r : α) :
    SerData K o0 (State.launch 0 o0 r) := by
  constructor <;> simp [State.launch, accum]

theorem OooInv.ooo_at_launch {α : Type} (K : Launch α) (o : Nat → α) (r : α) :
    OooInv K (State.launch 0 o r) := by
  constructor <;> simp [State.launch]

/-- Serialized protocol, zero counter at launch: the control invariant holds
in every reachable state. -/
theorem serialized_reach_ctrl {α : Type} {K : Launch α} {o0 : Nat → α} {r : α}
    {sched : List (Nat × Nat)} {s : State α}
    (hk : K.kernel = simple_workgroup_reduce true) (hN : K.gridDim < U32)
    (hrun : run K sched (State.launch 0 o0 r) = some s) : SerInv K s :=
  run_invariant K (SerInv K)
    (fun _ _ _ _ hb _ hP he => SerInv.ser_step hk hN hb hP he)
    sched _ s (SerInv.ser_at_launch K o0 r) hrun

/-- Serialized protocol, zero counter at launch: control and data invariants
hold in every reachable state. -/
theorem serialized_reach {α : Type} {K : Launch α} {o0 : Nat → α} {r : α}
    {sched : List (Nat × Nat)} {s : State α}
    (hk : K.kernel = simple_workgroup_reduce true) (hN : K.gridDim < U32)
    (hs : K.macros.supported = true) (hL : K.blockDim ≤ 1073741824) (hWs : 0 < K.waveSize)
    (hrun : run K sched (State.launch 0 o0 r) = some s) : SerInv K s ∧ SerData K o0 s :=
  run_invariant K (fun s => SerInv K s ∧ SerData K o0 s)
    (fun _ _ _ _ hb hw hP he =>
      ⟨SerInv.ser_step hk hN hb hP.1 he,
        SerData.data_step hk hN hs hL hWs hb hw hP.1 hP.2 he⟩)
    sched _ s ⟨SerInv.ser_at_launch K o0 r, SerData.data_at_launch K o0 r⟩ hrun

/-- Out-of-order protocol, zero counter at launch: the control invariant holds
in every reachable state. -/
theorem outoforder_reach {α : Type} {K : Launch α} {o0 : Nat → α} {r : α}
    {sched : List (Nat × Nat)} {s : State α}
    (hk : K.kernel = simple_workgroup_reduce false)
    (hrun : run K sched (State.launch 0 o0 r) = some s) : OooInv K s :=
  run_invariant K (OooInv K)
    (fun _ _ _ _ hb _ hP he => OooInv.ooo_step hk hb hP he)
    sched _ s (OooInv.ooo_at_launch K o0 r) hrun

theorem numWaves_pos {α : Type} (K : Launch α) (hL : 0 < K.blockDim) (hWs : 0 < K.waveSize) :
    0 < K.numWaves := by
  exact Nat.lt_of_le_of_lt (Nat.zero_le _) (lane_wave_lt K hWs hL)

/-- Serialized protocol: once every wavefront has left, the counter is the
grid size. -/
theorem SerInv.ser_final_cnt {α : Type} {K : Launch α} {s : State α}
    (hk : K.kernel = simple_workgroup_reduce true) (hW : 0 < K.numWaves)
    (hinv : SerInv K s) (hdone : s.allDone K) : s.cnt = K.gridDim := by
  have h1 := hinv.cnt_le
  by_contra hne
  have hlt : s.cnt < K.gridDim := by omega
  have h2 := hdone s.cnt hlt 0 hW
  unfold State.finished at h2
  rw [hk, kernel_length] at h2
  have h3 := hinv.lead_done s.cnt h2
  omega

/-- Serialized protocol: once every wavefront has left, the output row holds
the block-order accumulation over the whole grid. -/
theorem SerData.final_out {α : Type} {K : Launch α} {o0 : Nat → α} {s : State α}
    (hk : K.kernel = simple_workgroup_reduce true) (hWs : 0 < K.waveSize)
    (hinv : SerInv K s) (hd : SerData K o0 s) (hdone : s.allDone K)
    (i : Nat) (hi : i < K.blockDim) : s.p_out i = accum K o0 i K.gridDim := by
  have hW : 0 < K.numWaves := numWaves_pos K (by omega) hWs
  have hc := hinv.ser_final_cnt hk hW hdone
  have e := hd.out_eq i hi
  rw [hc, hinv.idle K.gridDim (i / K.waveSize) (le_refl _)] at e
  simpa using e

/-- Out-of-order protocol: once every wavefront has left, the counter is 0. -/
theorem OooInv.ooo_final_cnt {α : Type} {K : Launch α} {s : State α}
    (hk : K.kernel = simple_workgroup_reduce false) (hW : 0 < K.numWaves)
    (hinv : OooInv K s) (hdone : s.allDone K) : s.cnt = 0 := by
  have h1 := hinv.cnt_le
  by_contra hne
  obtain ⟨b, hb, hlo, hhi⟩ := hinv.held (by omega)
  have h2 := hdone b hb 0 hW
  unfold State.finished at h2
  rw [hk, kernel_length] at h2
  omega

/-- Serialized kernel from a zero counter: the output row of any complete
run, in terms of the tiles the kernel reads. -/
theorem serialized_final_accum {α : Type} {m : Macros} {N L W : Nat} {add : α → α → α}
    {p_in o0 : Nat → α} {r : α} {sched : List (Nat × Nat)} {s : State α}
    (hN : N < U32) (hs : m.supported = true) (hL : L ≤ 1073741824) (hW : 0 < W)
    (hrun : run (reduce_launch true m N L W add p_in) sched (State.launch 0 o0 r) = some s)
    (hdone : s.allDone (reduce_launch true m N L W add p_in)) (i : Nat) (hi : i < L) :
    s.p_out i = accum (reduce_launch true m N L W add p_in) o0 i N := by
  have hK : SerInv (reduce_launch true m N L W add p_in) s ∧
      SerData (reduce_launch true m N L W add p_in) o0 s :=
    serialized_reach rfl hN hs hL hW hrun
  exact hK.2.final_out rfl hW hK.1 hdone i hi

/-- Serialized kernel from a zero counter: some schedule runs to
completion. -/
theorem serialized_complete_run_exists {α : Type} (m : Macros) (N L W : Nat)
    (add : α → α → α) (p_in o0 : Nat → α) (r : α) (hN : N < U32) :
    ∃ sched s,
      run (reduce_launch true m N L W add p_in) sched (State.launch 0 o0 r) = some s ∧
      s.allDone (reduce_launch true m N L W add p_in) :=
  exists_complete_run (reduce_launch true m N L W add p_in)
    (SerInv (reduce_launch true m N L W add p_in)) 7
    (fun b => kernel_length true b) (fun _ h => h.pc_le)
    (fun _ _ _ _ hb _ h he => SerInv.ser_step rfl hN hb h he)
    (fun _ h hnd => SerInv.ser_live rfl h hnd) _ _ (SerInv.ser_at_launch _ o0 r) (le_refl _)

theorem OooData.data_ooo_at_launch {α : Type} (K : Launch α) (o0 : Nat → α) (r : α) :
    OooData K o0 (State.launch 0 o0 r) [] := by
  constructor <;> simp [State.launch, accum_order]

/-- Out-of-order protocol, zero counter at launch: control invariant and data
invariant of wavefront 0 hold in every reachable state. -/
theorem outoforder_reach_data {α : Type} {K : Launch α} {o0 : Nat → α} {r : α}
    {sched : List (Nat × Nat)} {s : State α}
    (hk : K.kernel = simple_workgroup_reduce false)
    (hs : K.macros.supported = true) (hL : K.blockDim ≤ 1073741824) (hWs : 0 < K.waveSize)
    (hrun : run K sched (State.launch 0 o0 r) = some s) :
    OooInv K s ∧ ∃ ord, OooData K o0 s ord :=
  run_invariant K (fun s => OooInv K s ∧ ∃ ord, OooData K o0 s ord)
    (fun _ _ _ _ hb _ hP he =>
      ⟨OooInv.ooo_step hk hb hP.1 he,
        OooData.data_ooo_step hk hs hL hWs hb hP.1 hP.2 he⟩)
    sched _ s ⟨OooInv.ooo_at_launch K o0 r, [], OooData.data_ooo_at_launch K o0 r⟩ hrun

/-- Out-of-order protocol: once every wavefront has left, the order of commits
lists every workgroup exactly once. -/
theorem OooData.final_perm {α : Type} {K : Launch α} {o0 : Nat → α} {s : State α}
    {ord : List Nat}
    (hk : K.kernel = simple_workgroup_reduce false) (hW : 0 < K.numWaves)
    (hd : OooData K o0 s ord) (hdone : s.allDone K) : ord.Perm (List.range K.gridDim) := by
  rw [List.perm_ext_iff_of_nodup hd.nodup (List.nodup_range _)]
  intro b
  rw [hd.mem b, List.mem_range]
  constructor
  · exact fun h => h.1
  · intro hb
    have h := hdone b hb 0 hW
    unfold State.finished at h
    rw [hk, kernel_length] at h
    exact ⟨hb, by omega⟩


set_option maxRecDepth 1000000 in
/-- C1, as stated, fails for grids of more than `2 ^ 24` workgroups: the tile
offset `blockIdx.x * BLOCK_SIZE` is computed in 32 bits.  Take a build for
gfx90a, `N = 2 ^ 24 + 1` workgroups of 256 threads, a zero output row and an
input that is 1 from element `2 ^ 32` on and 0 before.  The serialized kernel
has runs that reach the state where all workgroups have exited, and each of
them ends with `output[0] = 0`, while the sum over `input[b * 256 + 0]`,
`b < N`, is at least 1: workgroup `2 ^ 24` reads `input[0]`, not
`input[2 ^ 32]`.  For `N = 2 ^ 23 + 1` the `int` index of the loop of
`host_workgroup_reduce` overflows, so there is no host value to compare with.
And on a build for a target without a body of `atomic_store_fp32` the kernel
stores nothing: two workgroups, tile 0 all ones and tile 1 all twos, run to
completion with `output[200] = 0`, where the block-order sum is 3. -/
theorem serialized_result_counterexample :
    (∃ sched s,
      run (reduce_launch true target_gfx90a 16777217 256 64 Nat.add wrap_in) sched
          (State.launch 0 zero_row 0) = some s ∧
      s.allDone (reduce_launch true target_gfx90a 16777217 256 64 Nat.add wrap_in)) ∧
    (∀ sched s,
      run (reduce_launch true target_gfx90a 16777217 256 64 Nat.add wrap_in) sched
          (State.launch 0 zero_row 0) = some s →
      s.allDone (reduce_launch true target_gfx90a 16777217 256 64 Nat.add wrap_in) →
      s.p_out 0 = 0) ∧
    1 ≤ block_order_sum Nat.add wrap_in 256 zero_row 0 16777217 ∧
    host_workgroup_reduce Nat.add 0 wrap_in zero_row 8388609 256 = none ∧
    ((run (reduce_launch true other_target 2 256 64 Nat.add demo_in) (sequential 2 4)
        (State.launch 0 zero_row 0)).map fun s =>
      (s.allDoneB (reduce_launch true other_target 2 256 64 Nat.add demo_in), s.cnt,
        s.p_out 200)) = some (true, 2, 0) ∧
    block_order_sum Nat.add demo_in 256 zero_row 200 2 = 3 := by
  have hN : 16777217 < U32 := by unfold U32; omega
  have hzero : ∀ n,
      accum (reduce_launch true target_gfx90a 16777217 256 64 Nat.add wrap_in) zero_row 0 n
        = 0 := by
    intro n
    induction n with
    | zero => rfl
    | succ n ih =>
        simp only [accum, ih]
        have hlt : n * BLOCK_SIZE % U32 + 0 < 4294967296 := by
          have := Nat.mod_lt (n * BLOCK_SIZE) (show 0 < U32 by unfold U32; omega)
          unfold U32 at this ⊢
          omega
        show Nat.add (wrap_in (n * BLOCK_SIZE % U32 + 0)) 0 = 0
        unfold wrap_in
        rw [if_pos hlt]
  refine ⟨serialized_complete_run_exists target_gfx90a 16777217 256 64 Nat.add wrap_in
      zero_row 0 hN, ?_, ?_, ?_, ?_, ?_⟩
  · intro sched s hrun hdone
    rw [serialized_final_accum hN (by decide) (by omega) (by omega) hrun hdone 0 (by omega)]
    exact hzero _
  · have h1 := term_le_block_order_sum wrap_in zero_row 256 0 16777217 16777216 (by decide)
    have hw : wrap_in (16777216 * 256 + 0) = 1 := by decide
    rw [hw] at h1
    exact h1
  · exact if_neg (by decide)
  · rfl
  · decide

/-- C1, amended. Serialized mode on a build for gfx908, gfx90a, gfx940,
gfx941 or gfx942, with `N ≤ 2 ^ 24` workgroups of 256 threads, counter slot 0
and an arbitrary initial output row `o0`: in every interleaving that runs to
completion, for every `i < 256` the final `output[i]` is `o0[i]` with the tile
elements `input[b * 256 + i]` added one at a time in ascending block order,
each step computing `input + output`.  It is the same for every schedule, and
with `o0` all zero, a commutative add and `N ≤ 2 ^ 23` (so that the `int`
indices of the host loop fit) it is the value
`host_workgroup_reduce(p_in, p_out, N, 256)` writes to `p_out[i]`. -/
theorem serialized_result {α : Type} (m : Macros) (N W : Nat) (add : α → α → α)
    (p_in o0 : Nat → α) (r : α) (sched : List (Nat × Nat)) (s : State α)
    (hs : m.supported = true) (hN : N ≤ 16777216) (hW : 1 ≤ W)
    (hrun : run (reduce_launch true m N 256 W add p_in) sched (State.launch 0 o0 r) = some s)
    (hdone : s.allDone (reduce_launch true m N 256 W add p_in)) :
    ∀ i, i < 256 →
      s.p_out i = block_order_sum add p_in 256 o0 i N ∧
      (∀ sched2 s2,
        run (reduce_launch true m N 256 W add p_in) sched2 (State.launch 0 o0 r) = some s2 →
        s2.allDone (reduce_launch true m N 256 W add p_in) → s2.p_out i = s.p_out i) ∧
      (∀ (zero : α) (p_out : Nat → α), (∀ x y, add x y = add y x) → (∀ j, o0 j = zero) →
        N ≤ 8388608 →
        ∃ h, host_workgroup_reduce add zero p_in p_out N 256 = some h ∧ s.p_out i = h i) := by
  intro i hi
  have hN32 : N < U32 := by unfold U32; omega
  have key : ∀ sched2 s2,
      run (reduce_launch true m N 256 W add p_in) sched2 (State.launch 0 o0 r) = some s2 →
      s2.allDone (reduce_launch true m N 256 W add p_in) →
      s2.p_out i = block_order_sum add p_in 256 o0 i N := by
    intro sched2 s2 h2 d2
    rw [serialized_final_accum hN32 hs (by omega) hW h2 d2 i hi]
    exact accum_eq_block_order_sum (reduce_launch true m N 256 W add p_in) o0 i N hN
  refine ⟨key sched s hrun hdone, ?_, ?_⟩
  · intro sched2 s2 h2 d2
    rw [key sched2 s2 h2 d2, key sched s hrun hdone]
  · intro zero p_out hcomm hz hN23
    obtain ⟨h, hh, hv⟩ := host_workgroup_reduce_eq add zero p_in p_out o0 N i hcomm (hz i) hN23 hi
    exact ⟨h, hh, by rw [hv]; exact key sched s hrun hdone⟩

set_option maxRecDepth 1000000 in
/-- Witness for C1: a build for gfx90a, two workgroups of 256 threads in
wavefronts of 64, run one after the other. -/
theorem serialized_result_witness :
    (target_gfx90a.supported = true ∧ 2 ≤ 16777216 ∧ 1 ≤ 64 ∧
      run (reduce_launch true target_gfx90a 2 256 64 Nat.add demo_in) (sequential 2 4)
          (State.launch 0 zero_row 0)
        = some (State.after (reduce_launch true target_gfx90a 2 256 64 Nat.add demo_in)
            (sequential 2 4) (State.launch 0 zero_row 0)) ∧
      (State.after (reduce_launch true target_gfx90a 2 256 64 Nat.add demo_in) (sequential 2 4)
          (State.launch 0 zero_row 0)).allDone
        (reduce_launch true target_gfx90a 2 256 64 Nat.add demo_in)) ∧
    (∀ i, i < 256 →
      (State.after (reduce_launch true target_gfx90a 2 256 64 Nat.add demo_in) (sequential 2 4)
          (State.launch 0 zero_row 0)).p_out i
        = block_order_sum Nat.add demo_in 256 zero_row i 2) ∧
    (State.after (reduce_launch true target_gfx90a 2 256 64 Nat.add demo_in) (sequential 2 4)
        (State.launch 0 zero_row 0)).p_out 200 = 3 :=
  ⟨⟨by decide, by decide, by decide, by rfl, (allDoneB_iff _ _).mp (by rfl)⟩,
    fun i hi =>
      (serialized_result target_gfx90a 2 64 Nat.add demo_in zero_row 0 (sequential 2 4)
        (State.after (reduce_launch true target_gfx90a 2 256 64 Nat.add demo_in) (sequential 2 4)
          (State.launch 0 zero_row 0))
        (by decide) (by decide) (by decide) (by rfl) ((allDoneB_iff _ _).mp (by rfl)) i hi).1,
    by rfl⟩

set_option maxRecDepth 1000000 in
/-- C2, the code at the failing input.  Out-of-order mode, two workgroups of
256 threads in wavefronts of 64, zero counter, zero output row, tile 0 all
ones and tile 1 all twos.  Under `lost_update_schedule` every wavefront runs
to its end and the counter is back at 0, `output[0]` holds both updates
(`3`), but `output[64]` holds `1`: the update of workgroup 1 is lost, while
both orders of the two workgroups would give `3`.  After the first 19 steps
wavefront 1 of workgroup 0 stands between its load of `output[64]` (it holds
the stale 0) and its store, the counter is 1 for workgroup 1, and wavefront 1
of workgroup 1 has already loaded and stored `output[64] = 2`. -/
theorem outoforder_lost_update :
    ((run (reduce_launch false target_gfx90a 2 256 64 Nat.add demo_in) lost_update_schedule
        (State.launch 0 zero_row 0)).map fun s =>
      (s.allDoneB (reduce_launch false target_gfx90a 2 256 64 Nat.add demo_in), s.cnt, s.p_out 0, s.p_out 64))
      = some (true, 0, 3, 1) ∧
    ((run (reduce_launch false target_gfx90a 2 256 64 Nat.add demo_in) (lost_update_schedule.take 19)
        (State.launch 0 zero_row 0)).map fun s =>
      (s.pc 0 1, s.o_data 0 64, s.cnt, s.pc 1 0, s.pc 1 1, s.p_out 64))
      = some (3, 0, 1, 1, 5, 2) ∧
    order_sum Nat.add demo_in 256 zero_row 64 [0, 1] = 3 ∧
    order_sum Nat.add demo_in 256 zero_row 64 [1, 0] = 3 := by
  refine ⟨by rfl, by rfl, by decide, by decide⟩

/-- C3. Out-of-order mode, counter slot 0 at launch: in every reachable state
at most one workgroup holds the critical section, the counter slot is 0 or 1,
and it is 1 exactly when some workgroup holds the section.  A workgroup starts
to hold exactly at the successful CAS 0 -> 1 of `aquire()` by its thread 0 and
ceases to hold exactly at the successful CAS 1 -> 0 of `release()`. -/
theorem outoforder_mutual_exclusion {α : Type} (m : Macros) (N L W : Nat) (add : α → α → α)
    (p_in o0 : Nat → α) (r : α) (sched : List (Nat × Nat)) (s : State α)
    (hrun : run (reduce_launch false m N L W add p_in) sched (State.launch 0 o0 r) = some s) :
    (∀ b b', b < N → b' < N → s.holds b → s.holds b' → b = b') ∧
    (s.cnt = 0 ∨ s.cnt = 1) ∧
    (s.cnt = 1 ↔ ∃ b, b < N ∧ s.holds b) ∧
    (∀ b w s', b < N → w < (reduce_launch false m N L W add p_in).numWaves →
      exec (reduce_launch false m N L W add p_in) s b w = some s' →
      (∀ b', ¬ s.holds b' → s'.holds b' →
        b' = b ∧ w = 0 ∧ s.pc b 0 = 0 ∧ s.cnt = 0 ∧ s'.cnt = 1) ∧
      (∀ b', s.holds b' → ¬ s'.holds b' →
        b' = b ∧ w = 0 ∧ s.pc b 0 = 5 ∧ s.cnt = 1 ∧ s'.cnt = 0)) := by
  have hinv : OooInv (reduce_launch false m N L W add p_in) s := outoforder_reach rfl hrun
  refine ⟨?_, ?_, ?_, ?_⟩
  · intro b b' _ _ h1 h2
    exact hinv.uniq b b' h1.1 h1.2 h2.1 h2.2
  · have := hinv.cnt_le
    omega
  · constructor
    · intro hc
      obtain ⟨b, hb, hlo, hhi⟩ := hinv.held hc
      exact ⟨b, hb, hlo, hhi⟩
    · rintro ⟨b, _, hlo, hhi⟩
      exact hinv.holder_cnt b hlo hhi
  · intro b w s' hb hw he
    obtain ⟨hp6, hpc, g0, g5, -, -, hcnt⟩ := exec_outoforder_ctrl rfl he
    constructor
    · intro b' hn hh
      unfold State.holds at hn hh
      rw [hpc] at hh
      rw [hcnt]
      clear hpc hcnt hinv hrun he
      split_ifs at hh with h1
      · obtain ⟨rfl, rfl⟩ := h1
        have h0 : s.pc b' 0 = 0 := by omega
        simp [h0, g0 h0 rfl]
      · exact absurd hh hn
    · intro b' hh hn
      unfold State.holds at hn hh
      rw [hpc] at hn
      rw [hcnt]
      clear hpc hcnt hinv hrun he
      split_ifs at hn with h1
      · obtain ⟨rfl, rfl⟩ := h1
        have h5 : s.pc b' 0 = 5 := by omega
        simp [h5, g5 h5 rfl]
      · exact absurd hh hn

/-- Witness for C3: two workgroups of 256 threads in wavefronts of 64; after
workgroup 1 has entered the section the invariant holds. -/
theorem outoforder_mutual_exclusion_witness :
    run (reduce_launch false target_gfx90a 2 256 64 Nat.add demo_in) [(1, 0), (0, 1)]
        (State.launch 0 zero_row 0)
      = some (State.after (reduce_launch false target_gfx90a 2 256 64 Nat.add demo_in) [(1, 0), (0, 1)]
          (State.launch 0 zero_row 0)) ∧
    (State.after (reduce_launch false target_gfx90a 2 256 64 Nat.add demo_in) [(1, 0), (0, 1)]
        (State.launch 0 zero_row 0)).cnt = 1 ∧
    ((State.after (reduce_launch false target_gfx90a 2 256 64 Nat.add demo_in) [(1, 0), (0, 1)]
        (State.launch 0 zero_row 0)).cnt = 1 ↔
      ∃ b, b < 2 ∧ (State.after (reduce_launch false target_gfx90a 2 256 64 Nat.add demo_in) [(1, 0), (0, 1)]
        (State.launch 0 zero_row 0)).holds b) :=
  ⟨rfl, rfl,
    (outoforder_mutual_exclusion target_gfx90a 2 256 64 Nat.add demo_in zero_row 0 [(1, 0), (0, 1)]
      (State.after (reduce_launch false target_gfx90a 2 256 64 Nat.add demo_in) [(1, 0), (0, 1)]
        (State.launch 0 zero_row 0)) rfl).2.2.1⟩

/-- C4, as stated, fails: with `value = 5` a load that returns `3 < 5` keeps
thread 0 in the loop of `wait_lt` (its wavefront cannot step), and a load that
returns `7 ≥ 5` lets it leave. -/
theorem wait_lt_counterexample :
    3 < 5 ∧ wait_lt_spins 5 3 = true ∧
    exec (wait_lt_launch 5 1 256 64) (State.launch 3 zero_row 0) 0 0 = none ∧
    ¬ 7 < 5 ∧ wait_lt_spins 5 7 = false ∧
    (exec (wait_lt_launch 5 1 256 64) (State.launch 7 zero_row 0) 0 0).isSome = true := by
  refine ⟨by decide, by decide, by rfl, by decide, by decide, by rfl⟩

/-- C4, amended. `wait_lt(value)` waits while the observed slot value is
`< value`: thread 0 leaves the spin loop on a load that returns `c` if and
only if `value ≤ c`, and keeps spinning while `c < value`; a workgroup of one
wavefront gets past the spin loop and the barrier exactly in that case. -/
theorem wait_lt_leaves_iff (value c N L W b : Nat) (o : Nat → Nat) (r : Nat) :
    (wait_lt_spins value c = false ↔ value ≤ c) ∧
    (wait_lt_spins value c = true ↔ c < value) ∧
    ((∃ s', exec (wait_lt_launch value N L W) (State.launch c o r) b 0 = some s') ↔
      value ≤ c) ∧
    ((∃ s', run (wait_lt_launch value 1 64 64) [(0, 0), (0, 0)] (State.launch c o r) = some s') ↔
      value ≤ c) := by
  refine ⟨?_, ?_, ?_, ?_⟩
  · simp [wait_lt_spins]
  · simp [wait_lt_spins]
  · by_cases h : c < value
    · have hn : ¬ value ≤ c := by omega
      simp [exec, wait_lt_launch, wait_lt, State.launch, execInstr, wait_lt_spins, ld, h, hn]
    · have hn : value ≤ c := by omega
      simp [exec, wait_lt_launch, wait_lt, State.launch, execInstr, wait_lt_spins, ld, h, hn]
  · by_cases h : c < value
    · have hn : ¬ value ≤ c := by omega
      simp [run, Launch.numWaves, exec, wait_lt_launch, wait_lt, State.launch, execInstr,
        wait_lt_spins, ld, h, hn]
    · have hn : value ≤ c := by omega
      simp [run, Launch.numWaves, exec, wait_lt_launch, wait_lt, State.launch, execInstr,
        wait_lt_spins, ld, h, hn, State.advance, arrived]

/-- C5, as stated, fails for a block size other than 256.  Build for gfx90a,
grid of two workgroups of two threads, input `[[1,2],[3,4]]` packed with
stride `L = 2`, output pre-filled with `[10, 20]`: both kernels run to
completion with `output = [11, 22]`, not `[14, 26]`, because workgroup 1
reads `input[256 + i]`, not `input[2 + i]`.  With `L = 256`, thread 0 of
workgroup `2 ^ 24` reads `input[0]`, not `input[2 ^ 24 * 256]`: the tile
offset is computed in 32 bits.  On a build for a target without a body of
`atomic_store_fp32` the kernel stores nothing: with the tiles `[1,2]`, `[3,4]`
at stride 256 the output stays `[10, 20]`.  And in a block of `2 ^ 30 + 1`
threads the store of thread `2 ^ 30` lands in `output[0]`, not in
`output[2 ^ 30]`: the byte offset of the store is cut to 32 bits. -/
theorem block_stride_counterexample :
    ((run (reduce_launch true target_gfx90a 2 2 64 Nat.add packed_in) (sequential 2 1)
        (State.launch 0 prefilled_row 0)).map fun s =>
      (s.allDoneB (reduce_launch true target_gfx90a 2 2 64 Nat.add packed_in), s.p_out 0,
        s.p_out 1)) = some (true, 11, 22) ∧
    ((run (reduce_launch false target_gfx90a 2 2 64 Nat.add packed_in) (sequential 2 1)
        (State.launch 0 prefilled_row 0)).map fun s =>
      (s.allDoneB (reduce_launch false target_gfx90a 2 2 64 Nat.add packed_in), s.p_out 0,
        s.p_out 1)) = some (true, 11, 22) ∧
    block_order_sum Nat.add packed_in 2 prefilled_row 0 2 = 14 ∧
    block_order_sum Nat.add packed_in 2 prefilled_row 1 2 = 26 ∧
    (reduce_launch true target_gfx90a 16777217 256 64 Nat.add wrap_in).tile 16777216 0
      = wrap_in 0 ∧
    wrap_in 0 ≠ wrap_in (16777216 * 256 + 0) ∧
    ((run (reduce_launch true other_target 2 2 64 Nat.add strided_in) (sequential 2 1)
        (State.launch 0 prefilled_row 0)).map fun s =>
      (s.allDoneB (reduce_launch true other_target 2 2 64 Nat.add strided_in), s.p_out 0,
        s.p_out 1)) = some (true, 10, 20) ∧
    ((exec (reduce_launch true target_gfx90a 1 1073741825 1 Nat.add ones_row) before_store 0
        1073741824).map fun s => (s.p_out 0, s.p_out 1073741824)) = some (1, 0) := by
  refine ⟨by rfl, by rfl, by decide, by decide, by rfl, by decide, by rfl, by rfl⟩

/-- C5, amended. For every launch geometry `grid = N ≤ 2 ^ 24`,
`block = L ≤ 2 ^ 30`, thread `i` of workgroup `b` reads `input[b * 256 + i]`:
the tile stride is the constant `BLOCK_SIZE = 256`, whatever `L` is.  On a
build for gfx908, gfx90a, gfx940, gfx941 or gfx942, on completion from a zero
counter: in serialized mode `output[i]` is the initial `output[i]` with
`input[b * 256 + i]` added for `b = 0, ..., N-1`, for every `i < L`; in
out-of-order mode there is an order of the `N` workgroups such that, for every
thread `i < L` of the wavefront of thread 0 (`i < W`), `output[i]` is the
initial `output[i]` with `input[b * 256 + i]` added once for each `b` in that
order. -/
theorem block_size_stride {α : Type} (m : Macros) (N L W : Nat) (add : α → α → α)
    (p_in o0 : Nat → α) (r : α) (hs : m.supported = true) (hN : N ≤ 16777216)
    (hL : L ≤ 1073741824) (hW : 1 ≤ W) :
    (∀ mode b i, b < N →
      (reduce_launch mode m N L W add p_in).tile b i = p_in (b * 256 + i)) ∧
    (∀ sched s,
      run (reduce_launch true m N L W add p_in) sched (State.launch 0 o0 r) = some s →
      s.allDone (reduce_launch true m N L W add p_in) →
      ∀ i, i < L → s.p_out i = block_order_sum add p_in 256 o0 i N) ∧
    (∀ sched s,
      run (reduce_launch false m N L W add p_in) sched (State.launch 0 o0 r) = some s →
      s.allDone (reduce_launch false m N L W add p_in) →
      ∃ ord : List Nat, ord.Perm (List.range N) ∧
        ∀ i, i < L → i < W → s.p_out i = order_sum add p_in 256 o0 i ord) := by
  have hN32 : N < U32 := by unfold U32; omega
  refine ⟨?_, ?_, ?_⟩
  · intro mode b i hb
    exact tile_eq (reduce_launch mode m N L W add p_in) b i (by omega)
  · intro sched s hrun hdone i hi
    rw [serialized_final_accum hN32 hs hL hW hrun hdone i hi]
    exact accum_eq_block_order_sum (reduce_launch true m N L W add p_in) o0 i N hN
  · intro sched s hrun hdone
    have hK : OooInv (reduce_launch false m N L W add p_in) s ∧
        ∃ ord, OooData (reduce_launch false m N L W add p_in) o0 s ord :=
      outoforder_reach_data rfl hs hL hW hrun
    obtain ⟨-, ord, hd⟩ := hK
    by_cases hL : 0 < L
    · have hnw : 0 < (reduce_launch false m N L W add p_in).numWaves := numWaves_pos _ hL hW
      have hperm := hd.final_perm rfl hnw hdone
      refine ⟨ord, hperm, ?_⟩
      intro i hi hiW
      have hlane : (reduce_launch false m N L W add p_in).lane 0 i :=
        ⟨Nat.div_eq_of_lt hiW, hi⟩
      rw [hd.out_eq i hlane]
      refine accum_order_eq_order_sum (reduce_launch false m N L W add p_in) o0 i ord ?_
      intro b hb
      have := List.mem_range.mp (hperm.subset hb)
      have hg : (reduce_launch false m N L W add p_in).gridDim = N := rfl
      omega
    · exact ⟨List.range N, List.Perm.refl _, fun i hi => absurd hi (by omega)⟩

/-- Witness for C5: the two scenarios of the specification on a build for
gfx90a with the tiles laid out at stride 256, in both modes.  Three workgroups of four threads,
rows of ones, twos and threes, zero output: `[6, 6, 6, 6]`.  Two workgroups of
two threads, tiles `[1,2]` and `[3,4]`, output pre-filled with `[10, 20]`:
`[14, 26]`. -/
theorem block_size_stride_witness :
    (target_gfx90a.supported = true ∧ 3 ≤ 16777216 ∧ 4 ≤ 1073741824 ∧ 1 ≤ 64 ∧
      run (reduce_launch true target_gfx90a 3 4 64 Nat.add rows_in) (sequential 3 1) (State.launch 0 zero_row 0)
        = some (State.after (reduce_launch true target_gfx90a 3 4 64 Nat.add rows_in) (sequential 3 1)
            (State.launch 0 zero_row 0)) ∧
      (State.after (reduce_launch true target_gfx90a 3 4 64 Nat.add rows_in) (sequential 3 1)
          (State.launch 0 zero_row 0)).allDone (reduce_launch true target_gfx90a 3 4 64 Nat.add rows_in) ∧
      run (reduce_launch false target_gfx90a 2 2 64 Nat.add strided_in) (sequential 2 1)
          (State.launch 0 prefilled_row 0)
        = some (State.after (reduce_launch false target_gfx90a 2 2 64 Nat.add strided_in) (sequential 2 1)
            (State.launch 0 prefilled_row 0)) ∧
      (State.after (reduce_launch false target_gfx90a 2 2 64 Nat.add strided_in) (sequential 2 1)
          (State.launch 0 prefilled_row 0)).allDone
        (reduce_launch false target_gfx90a 2 2 64 Nat.add strided_in)) ∧
    (∀ i, i < 4 →
      (State.after (reduce_launch true target_gfx90a 3 4 64 Nat.add rows_in) (sequential 3 1)
          (State.launch 0 zero_row 0)).p_out i
        = block_order_sum Nat.add rows_in 256 zero_row i 3) ∧
    (∀ i, i < 4 → block_order_sum Nat.add rows_in 256 zero_row i 3 = 6) ∧
    (∃ ord : List Nat, ord.Perm (List.range 2) ∧
      ∀ i, i < 2 → i < 64 →
        (State.after (reduce_launch false target_gfx90a 2 2 64 Nat.add strided_in) (sequential 2 1)
            (State.launch 0 prefilled_row 0)).p_out i
          = order_sum Nat.add strided_in 256 prefilled_row i ord) ∧
    (State.after (reduce_launch false target_gfx90a 2 2 64 Nat.add strided_in) (sequential 2 1)
        (State.launch 0 prefilled_row 0)).p_out 0 = 14 ∧
    (State.after (reduce_launch false target_gfx90a 2 2 64 Nat.add strided_in) (sequential 2 1)
        (State.launch 0 prefilled_row 0)).p_out 1 = 26 :=
  ⟨⟨by decide, by decide, by decide, by decide, by rfl, (allDoneB_iff _ _).mp (by rfl), by rfl,
      (allDoneB_iff _ _).mp (by rfl)⟩,
    (block_size_stride target_gfx90a 3 4 64 Nat.add rows_in zero_row 0 (by decide) (by decide)
      (by decide) (by decide)).2.1
      (sequential 3 1)
      (State.after (reduce_launch true target_gfx90a 3 4 64 Nat.add rows_in) (sequential 3 1)
        (State.launch 0 zero_row 0))
      (by rfl) ((allDoneB_iff _ _).mp (by rfl)),
    by decide,
    (block_size_stride target_gfx90a 2 2 64 Nat.add strided_in prefilled_row 0 (by decide)
      (by decide) (by decide) (by decide)).2.2
      (sequential 2 1)
      (State.after (reduce_launch false target_gfx90a 2 2 64 Nat.add strided_in) (sequential 2 1)
        (State.launch 0 prefilled_row 0))
      (by rfl) ((allDoneB_iff _ _).mp (by rfl)),
    by rfl, by rfl⟩

/-- C6. Progress from a zero counter, for every `N ≤ 65535` and both
protocols, on the step relation in which a failed spin iteration is not a
step: a reachable state in which some wavefront has not finished has an
enabled step; a run has at most `7 * N * numWaves` steps; a reachable state
without enabled step is the state where all workgroups have exited; and every
run can be continued to that state. -/
theorem kernel_progress {α : Type} (serialized : Bool) (m : Macros) (N L W : Nat)
    (add : α → α → α)
    (p_in o0 : Nat → α) (r : α) (hN : N ≤ 65535) :
    (∀ sched s,
      run (reduce_launch serialized m N L W add p_in) sched (State.launch 0 o0 r) = some s →
      ¬ s.allDone (reduce_launch serialized m N L W add p_in) →
      ∃ b w s', b < N ∧ w < (reduce_launch serialized m N L W add p_in).numWaves ∧
        exec (reduce_launch serialized m N L W add p_in) s b w = some s') ∧
    (∀ sched s,
      run (reduce_launch serialized m N L W add p_in) sched (State.launch 0 o0 r) = some s →
      sched.length ≤ 7 * N * (reduce_launch serialized m N L W add p_in).numWaves) ∧
    (∀ sched s,
      run (reduce_launch serialized m N L W add p_in) sched (State.launch 0 o0 r) = some s →
      (∀ b w, b < N → w < (reduce_launch serialized m N L W add p_in).numWaves →
        exec (reduce_launch serialized m N L W add p_in) s b w = none) →
      s.allDone (reduce_launch serialized m N L W add p_in)) ∧
    (∀ sched s,
      run (reduce_launch serialized m N L W add p_in) sched (State.launch 0 o0 r) = some s →
      ∃ rest s',
        run (reduce_launch serialized m N L W add p_in) (sched ++ rest) (State.launch 0 o0 r)
          = some s' ∧
        s'.allDone (reduce_launch serialized m N L W add p_in)) := by
  have hN32 : N < U32 := by unfold U32; omega
  -- one invariant for both protocols
  obtain ⟨P, hP0, hPpc, hPstep, hPlive⟩ :
      ∃ P : State α → Prop, P (State.launch 0 o0 r) ∧
        (∀ s, P s → ∀ b w, s.pc b w ≤ 7) ∧
        (∀ s s' b w, b < (reduce_launch serialized m N L W add p_in).gridDim →
          w < (reduce_launch serialized m N L W add p_in).numWaves → P s →
          exec (reduce_launch serialized m N L W add p_in) s b w = some s' → P s') ∧
        (∀ s, P s → ¬ s.allDone (reduce_launch serialized m N L W add p_in) →
          ∃ b w s', b < (reduce_launch serialized m N L W add p_in).gridDim ∧
            w < (reduce_launch serialized m N L W add p_in).numWaves ∧
            exec (reduce_launch serialized m N L W add p_in) s b w = some s') := by
    cases serialized with
    | true =>
        exact ⟨SerInv (reduce_launch true m N L W add p_in), SerInv.ser_at_launch _ o0 r,
          fun _ h => h.pc_le,
          fun _ _ _ _ hb _ h he => SerInv.ser_step rfl hN32 hb h he,
          fun _ h hnd => SerInv.ser_live rfl h hnd⟩
    | false =>
        exact ⟨OooInv (reduce_launch false m N L W add p_in), OooInv.ooo_at_launch _ o0 r,
          fun _ h => h.pc_le,
          fun _ _ _ _ hb _ h he => OooInv.ooo_step rfl hb h he,
          fun _ h hnd => OooInv.ooo_live rfl h hnd⟩
  have hreach : ∀ sched s,
      run (reduce_launch serialized m N L W add p_in) sched (State.launch 0 o0 r) = some s → P s :=
    fun sched s h => run_invariant _ P hPstep sched _ s hP0 h
  have hlen : ∀ b, ((reduce_launch serialized m N L W add p_in).kernel b).length = 7 :=
    fun b => kernel_length serialized b
  refine ⟨?_, ?_, ?_, ?_⟩
  · intro sched s hrun hnd
    exact hPlive s (hreach sched s hrun) hnd
  · intro sched s hrun
    have h1 := progress_run _ sched _ s hrun
    have h2 := progress_le (reduce_launch serialized m N L W add p_in) s 7
      (hPpc s (hreach sched s hrun))
    rw [progress_launch] at h1
    have hg : (reduce_launch serialized m N L W add p_in).gridDim = N := rfl
    rw [hg] at h2
    omega
  · intro sched s hrun hnone
    by_contra hnd
    obtain ⟨b, w, s', hb, hw, he⟩ := hPlive s (hreach sched s hrun) hnd
    rw [hnone b w hb hw] at he
    cases he
  · intro sched s hrun
    obtain ⟨rest, s', hr, hd⟩ := exists_complete_run _ P 7 hlen hPpc hPstep hPlive _ s
      (hreach sched s hrun) (le_refl _)
    refine ⟨rest, s', ?_, hd⟩
    rw [run_append, hrun]
    exact hr

/-- Witness for C6: the largest grid of the claim, 65535 workgroups of 256
threads in wavefronts of 64, serialized: some schedule runs the kernel from
launch to the state where all workgroups have exited, and no run is longer
than `7 * 65535 * 4` steps. -/
theorem kernel_progress_witness :
    65535 ≤ 65535 ∧
    (∃ rest s',
      run (reduce_launch true target_gfx90a 65535 256 64 Nat.add demo_in) ([] ++ rest)
          (State.launch 0 zero_row 0) = some s' ∧
      s'.allDone (reduce_launch true target_gfx90a 65535 256 64 Nat.add demo_in)) ∧
    (∀ sched s,
      run (reduce_launch true target_gfx90a 65535 256 64 Nat.add demo_in) sched (State.launch 0 zero_row 0)
        = some s →
      sched.length ≤ 7 * 65535 * (reduce_launch true target_gfx90a 65535 256 64 Nat.add demo_in).numWaves) :=
  ⟨le_refl _,
    (kernel_progress true target_gfx90a 65535 256 64 Nat.add demo_in zero_row 0 (le_refl _)).2.2.2 []
      (State.launch 0 zero_row 0) rfl,
    (kernel_progress true target_gfx90a 65535 256 64 Nat.add demo_in zero_row 0 (le_refl _)).2.1⟩

/-- C8. Final counter value: starting from counter slot 0, after any run in
which all `N` workgroups (`1 ≤ N < 2 ^ 32`) have exited, the counter slot
reads `N` in serialized mode and `0` in out-of-order mode. -/
theorem final_counter_value {α : Type} (serialized : Bool) (m : Macros) (N L W : Nat)
    (add : α → α → α)
    (p_in o0 : Nat → α) (r : α) (sched : List (Nat × Nat)) (s : State α)
    (hN : N < 4294967296) (hL : 1 ≤ L) (hW : 1 ≤ W)
    (hrun : run (reduce_launch serialized m N L W add p_in) sched (State.launch 0 o0 r) = some s)
    (hdone : s.allDone (reduce_launch serialized m N L W add p_in)) :
    s.cnt = if serialized then N else 0 := by
  have hnw : 0 < (reduce_launch serialized m N L W add p_in).numWaves :=
    numWaves_pos _ hL hW
  cases serialized with
  | true =>
      have hinv : SerInv (reduce_launch true m N L W add p_in) s :=
        serialized_reach_ctrl rfl hN hrun
      simpa using hinv.ser_final_cnt rfl hnw hdone
  | false =>
      have hinv : OooInv (reduce_launch false m N L W add p_in) s := outoforder_reach rfl hrun
      simpa using hinv.ooo_final_cnt rfl hnw hdone

set_option maxRecDepth 1000000 in
/-- Witness for C8: 64 workgroups of 64 threads, all-zero input, run one
after the other: the counter ends at 64 (serialized) and 0 (out-of-order). -/
theorem final_counter_value_witness :
    (64 < 4294967296 ∧ 1 ≤ 64 ∧
      run (reduce_launch true target_gfx90a 64 64 64 Nat.add zero_row) (sequential 64 1)
          (State.launch 0 zero_row 0)
        = some (State.after (reduce_launch true target_gfx90a 64 64 64 Nat.add zero_row) (sequential 64 1)
            (State.launch 0 zero_row 0)) ∧
      run (reduce_launch false target_gfx90a 64 64 64 Nat.add zero_row) (sequential 64 1)
          (State.launch 0 zero_row 0)
        = some (State.after (reduce_launch false target_gfx90a 64 64 64 Nat.add zero_row) (sequential 64 1)
            (State.launch 0 zero_row 0))) ∧
    (State.after (reduce_launch true target_gfx90a 64 64 64 Nat.add zero_row) (sequential 64 1)
        (State.launch 0 zero_row 0)).cnt = 64 ∧
    (State.after (reduce_launch false target_gfx90a 64 64 64 Nat.add zero_row) (sequential 64 1)
        (State.launch 0 zero_row 0)).cnt = 0 :=
  ⟨⟨by decide, by decide, by rfl, by rfl⟩,
    final_counter_value true target_gfx90a 64 64 64 Nat.add zero_row zero_row 0 (sequential 64 1)
      (State.after (reduce_launch true target_gfx90a 64 64 64 Nat.add zero_row) (sequential 64 1)
        (State.launch 0 zero_row 0))
      (by decide) (by decide) (by decide) (by rfl)
      ((allDoneB_iff _ _).mp (by rfl)),
    final_counter_value false target_gfx90a 64 64 64 Nat.add zero_row zero_row 0 (sequential 64 1)
      (State.after (reduce_launch false target_gfx90a 64 64 64 Nat.add zero_row) (sequential 64 1)
        (State.launch 0 zero_row 0))
      (by decide) (by decide) (by decide) (by rfl)
      ((allDoneB_iff _ _).mp (by rfl))⟩

set_option maxRecDepth 1000000 in
/-- C9, the code at the failing input.  For a build that defines none of
the five target symbols the chain `#if ... #elif ... #endif` selects nothing
and stops nothing: `atomic_store_fp32` has the empty body, and a call leaves
`addr[offset]` as it was (here 0, not the stored 1), while the bodies selected
for gfx90a and for gfx942 do store.  The kernel built that way runs to
completion with the output row untouched (`output[0] = 0`), where the build
for gfx90a and `host_workgroup_reduce` both give 3.  Besides, on gfx90a a
store at `offset = 2 ^ 30` writes `addr[0]` and leaves `addr[2 ^ 30]`: the
byte offset is cut to 32 bits. -/
theorem atomic_store_unsupported_noop :
    other_target.supported = false ∧
    atomic_store_fp32_body other_target = [] ∧
    atomic_store_fp32 other_target zero_row 1 0 0 = 0 ∧
    atomic_store_fp32_body target_gfx90a = [Stmt.global_store_dword_glc] ∧
    atomic_store_fp32 target_gfx90a zero_row 1 0 0 = 1 ∧
    atomic_store_fp32_body target_gfx942 = [Stmt.global_store_dword_sc0_sc1] ∧
    atomic_store_fp32 target_gfx942 zero_row 1 0 0 = 1 ∧
    ((run (reduce_launch true other_target 2 256 64 Nat.add demo_in) (sequential 2 4)
        (State.launch 0 zero_row 0)).map fun s =>
      (s.allDoneB (reduce_launch true other_target 2 256 64 Nat.add demo_in), s.p_out 0))
      = some (true, 0) ∧
    ((run (reduce_launch true target_gfx90a 2 256 64 Nat.add demo_in) (sequential 2 4)
        (State.launch 0 zero_row 0)).map fun s =>
      (s.allDoneB (reduce_launch true target_gfx90a 2 256 64 Nat.add demo_in), s.p_out 0))
      = some (true, 3) ∧
    ((host_workgroup_reduce Nat.add 0 demo_in zero_row 2 256).map fun h => h 0) = some 3 ∧
    atomic_store_fp32 target_gfx90a zero_row 1 1073741824 1073741824 = 0 ∧
    atomic_store_fp32 target_gfx90a zero_row 1 1073741824 0 = 1 := by
  refine ⟨by decide, by decide, by decide, by decide, by decide, by decide, by decide,
    by rfl, by rfl, by rfl, by decide, by decide⟩

/-- C10. Serialized mode, counter slot 0 at launch, in every reachable state:
a thread of workgroup `b` that has passed `wait_eq(b)` sees `counter == b` as
long as its workgroup's increment has not happened (in particular while it is
in the load/add/store part); it has passed `wait_eq(b)` only after every
wavefront of every workgroup `b' < b` has completed its store; and a step
that changes the counter is the atomic add of thread 0 of workgroup
`b = counter`, taken after all wavefronts of `b` have completed their store,
and it sets the counter to `b + 1`. -/
theorem serialized_ordering {α : Type} (m : Macros) (N L W : Nat) (add : α → α → α)
    (p_in o0 : Nat → α) (r : α) (sched : List (Nat × Nat)) (s : State α)
    (hN : N < 4294967296)
    (hrun : run (reduce_launch true m N L W add p_in) sched (State.launch 0 o0 r) = some s) :
    (∀ b w, b < N → w < (reduce_launch true m N L W add p_in).numWaves →
      2 ≤ s.pc b w → s.pc b 0 ≤ 6 → s.cnt = b) ∧
    (∀ b w, b < N → w < (reduce_launch true m N L W add p_in).numWaves →
      2 ≤ s.pc b w → s.pc b w ≤ 4 → s.cnt = b) ∧
    (∀ b w b' w', b < N → w < (reduce_launch true m N L W add p_in).numWaves →
      b' < b → w' < (reduce_launch true m N L W add p_in).numWaves →
      2 ≤ s.pc b w → 5 ≤ s.pc b' w') ∧
    (∀ b w s', b < N → w < (reduce_launch true m N L W add p_in).numWaves →
      exec (reduce_launch true m N L W add p_in) s b w = some s' → s'.cnt ≠ s.cnt →
      w = 0 ∧ s.pc b 0 = 6 ∧ s.cnt = b ∧ s'.cnt = b + 1 ∧
      ∀ w', w' < (reduce_launch true m N L W add p_in).numWaves → 5 ≤ s.pc b w') := by
  have hinv : SerInv (reduce_launch true m N L W add p_in) s :=
    serialized_reach_ctrl rfl hN hrun
  have hg : (reduce_launch true m N L W add p_in).gridDim = N := rfl
  refine ⟨?_, ?_, ?_, ?_⟩
  · intro b w hb hw h2 h6
    have hW : 0 < (reduce_launch true m N L W add p_in).numWaves := by omega
    have c1 := hinv.bar1 b w 0 hW h2
    have c2 := hinv.lead_hi b c1
    have c3 := hinv.lead_lo b hb h6
    omega
  · intro b w hb hw h2 h4
    exact hinv.cnt_eq hb hw h2 h4
  · intro b w b' w' hb hw hb' hw' h2
    have hW : 0 < (reduce_launch true m N L W add p_in).numWaves := by omega
    have c1 := hinv.bar1 b w 0 hW h2
    have c2 := hinv.lead_hi b c1
    have c3 := hinv.lead_lo b' (by rw [hg]; omega)
    have c4 := hinv.pc_le b' 0
    have c5 := hinv.bar5 b' 0 w' hw'
    omega
  · intro b w s' hb hw he hne
    obtain ⟨hp6, hpc, -, -, -, hcnt⟩ := exec_serialized_ctrl rfl he
    have hadd : s.pc b w = 6 ∧ w = 0 := by
      by_contra hno
      rw [if_neg hno] at hcnt
      exact hne hcnt
    obtain ⟨h6, rfl⟩ := hadd
    rw [if_pos ⟨h6, rfl⟩] at hcnt
    have c2 := hinv.lead_hi b (by omega)
    have c3 := hinv.lead_lo b hb (by omega)
    have hcb : s.cnt = b := by omega
    refine ⟨rfl, h6, hcb, ?_, fun w' hw' => hinv.bar5 b 0 w' hw' (by omega)⟩
    rw [hcnt, hcb]
    exact Nat.mod_eq_of_lt (by unfold U32; omega)

set_option maxRecDepth 100000 in
/-- Witness for C10: three workgroups; workgroup 0 has run to its end, two
wavefronts of workgroup 1 are in the data part and the counter reads 1. -/
theorem serialized_ordering_witness :
    (3 < 4294967296 ∧
      run (reduce_launch true target_gfx90a 3 256 64 Nat.add demo_in)
          (sequential 1 4 ++ [(1, 0), (1, 1), (1, 2), (1, 3), (1, 2), (1, 2), (1, 3)])
          (State.launch 0 zero_row 0)
        = some (State.after (reduce_launch true target_gfx90a 3 256 64 Nat.add demo_in)
          (sequential 1 4 ++ [(1, 0), (1, 1), (1, 2), (1, 3), (1, 2), (1, 2), (1, 3)])
          (State.launch 0 zero_row 0))) ∧
    (∀ b w, b < 3 → w < (reduce_launch true target_gfx90a 3 256 64 Nat.add demo_in).numWaves →
      2 ≤ (State.after (reduce_launch true target_gfx90a 3 256 64 Nat.add demo_in)
          (sequential 1 4 ++ [(1, 0), (1, 1), (1, 2), (1, 3), (1, 2), (1, 2), (1, 3)])
          (State.launch 0 zero_row 0)).pc b w →
      (State.after (reduce_launch true target_gfx90a 3 256 64 Nat.add demo_in)
          (sequential 1 4 ++ [(1, 0), (1, 1), (1, 2), (1, 3), (1, 2), (1, 2), (1, 3)])
          (State.launch 0 zero_row 0)).pc b w ≤ 4 →
      (State.after (reduce_launch true target_gfx90a 3 256 64 Nat.add demo_in)
          (sequential 1 4 ++ [(1, 0), (1, 1), (1, 2), (1, 3), (1, 2), (1, 2), (1, 3)])
          (State.launch 0 zero_row 0)).cnt = b) ∧
    (State.after (reduce_launch true target_gfx90a 3 256 64 Nat.add demo_in)
          (sequential 1 4 ++ [(1, 0), (1, 1), (1, 2), (1, 3), (1, 2), (1, 2), (1, 3)])
          (State.launch 0 zero_row 0)).pc 1 2 = 3 :=
  ⟨⟨by decide, by rfl⟩,
    (serialized_ordering target_gfx90a 3 256 64 Nat.add demo_in zero_row 0
      (sequential 1 4 ++ [(1, 0), (1, 1), (1, 2), (1, 3), (1, 2), (1, 2), (1, 3)])
      (State.after (reduce_launch true target_gfx90a 3 256 64 Nat.add demo_in)
          (sequential 1 4 ++ [(1, 0), (1, 1), (1, 2), (1, 3), (1, 2), (1, 2), (1, 3)])
          (State.launch 0 zero_row 0))
      (by decide) (by rfl)).2.1,
    by rfl⟩

end CrossWgSync
